import Mathlib

/-! NaviCLI playback session: a shallow embedding of `main.go`

The Go program keeps its playback session in the fields of `Application`
(`totalSongs`, `currentSong`, `currentSongIndex`, `isPlaying`, `isLoading`, the
pagination fields and the `mpvInstance` handle).  Each Go function that the
verified properties are about is translated to a pure function on that record.

Conventions of the embedding

* Go `int` is `Int`; no value in the program comes near the 64-bit bounds
  (indices are bounded by the length of the catalog).
* A nil pointer is `none`; the `Mpv` handle inside `mpvplayer.Mpvplayer` is
  kept as a `Bool` that says whether the handle is non-nil.
* What a function does to the outside world is returned as a list of `Effect`s
  in program order: commands to the audio engine, the start of a URL
  resolution, the replacement of the play queue and the closures handed to
  `QueueUpdateDraw`.  The text built with `fmt.Sprintf` is kept as a `Display`
  value that records which template is used and what is substituted into it.
* The goroutine started by `playSongAtIndex` is cut at its blocking points (the
  `select` on the resolver, the two `time.Sleep` calls); the piece of code
  between two blocking points is one function, and `LoadTask` holds what the
  goroutine has captured together with the point it is blocked at.  The
  goroutine of the space key is cut the same way, at its call of `Pause`.
* A closure handed to `QueueUpdateDraw` runs later, as a step of its own; the
  rows of the song table are part of the program state.
-/

namespace NaviCLI

/-! ## Data model -/

/-- Record `subsonic.Song`, with the fields `main.go` reads. -/
structure Song where
  ID : String
  Title : String
  Artist : String
  Album : String
  Duration : Int
  Size : Int
deriving DecidableEq, Inhabited

/-- Record `mpvplayer.QueueItem`, with the fields `main.go` writes. -/
structure QueueItem where
  Id : String
  Uri : String
  Title : String
  Artist : String
  Duration : Int
deriving DecidableEq, Inhabited

/-- Record `mpvplayer.Mpvplayer`: `Mpv` is true when the engine handle is
non-nil, `Queue` is the play queue. -/
structure Mpvplayer where
  Mpv : Bool
  Queue : List QueueItem
deriving DecidableEq, Inhabited

/-- The fields of `Application` that hold program state (the widget pointers
are left out; what is written to them is reported as a `Display`). -/
structure Application where
  mpvInstance : Option Mpvplayer
  totalSongs : List Song
  currentPage : Int
  pageSize : Int
  totalPages : Int
  currentSong : Option Song
  isPlaying : Bool
  isLoading : Bool
  currentSongIndex : Int
  isSearching : Bool
deriving DecidableEq, Inhabited

/-- The closures passed to `QueueUpdateDraw`: which text template is written
and what is substituted into it.  `number` is the `index+1` printed after
"Current". -/
inductive Display where
  /-- Status text with the title followed by "(Loading...)". -/
  | statusLoading (number : Int) (track : Song)
  /-- Status text with the title in red followed by "(Failed)" and "Play Failed". -/
  | statusFailed (number : Int) (track : Song)
  /-- Status text with the title in green and the 0.0% bar. -/
  | statusPlaying (number : Int) (track : Song)
  /-- Status text with the title followed by "(PAUSED)", written by the space key. -/
  | statusPaused (number : Int) (track : Song)
  /-- Status text with the title in green, written by the space key on resume. -/
  | statusResumed (number : Int) (track : Song)
  /-- The call of `renderSongTable`. -/
  | renderSongTable
  /-- Status text "No results found for: name". -/
  | noResults (name : String)
  /-- Status text "load music failed" or "Search failed". -/
  | statusError
deriving DecidableEq

/-- What the program does to its collaborators. -/
inductive Effect where
  /-- Call `subsonicClient.GetPlayURL(id)`. -/
  | getPlayURL (id : String)
  /-- Assignment `a.mpvInstance.Queue = ...`. -/
  | setQueue (queue : List QueueItem)
  /-- Call `a.mpvInstance.Stop()`. -/
  | stop
  /-- Call `a.mpvInstance.Play(url)`. -/
  | play (url : String)
  /-- Call `a.mpvInstance.Pause()`. -/
  | pause
  /-- Call `a.application.QueueUpdateDraw(...)`. -/
  | queueUpdateDraw (d : Display)
deriving DecidableEq

/-- Commands to the audio engine: `Stop`, `Play`, `Pause`. -/
def Effect.isEngineCommand : Effect → Bool
  | .stop => true
  | .play _ => true
  | .pause => true
  | _ => false

/-- The queued closure that calls `renderSongTable`. -/
def Effect.isRender : Effect → Bool
  | .queueUpdateDraw .renderSongTable => true
  | _ => false

/-- Blocking points of the goroutine started by `playSongAtIndex`. -/
inductive LoadPC where
  /-- Blocked in the `select` on `done` and `time.After(10 * time.Second)`. -/
  | resolving
  /-- Blocked after the queue was replaced (in the 50 ms sleep when `Stop`
  was called), holding the resolved URL. -/
  | settled (playURL : String)
  /-- Blocked in the 500 ms sleep after `Play`. -/
  | started
deriving DecidableEq

/-- The goroutine started by `playSongAtIndex`: the captured `index` and
`currentTrack` and the point it is blocked at. -/
structure LoadTask where
  index : Int
  currentTrack : Song
  pc : LoadPC
deriving DecidableEq

/-- What the `select` of the load goroutine receives: a URL from
`GetPlayURL` (possibly empty), the empty string sent when the resolver
panics, or the 10 s timer. -/
inductive Resolved where
  | url (playURL : String)
  | fault
  | timeout
deriving DecidableEq

/-! ## Playback controller -/

/-- Function `setupPagination`. -/
def setupPagination (a : Application) : Application :=
  { a with pageSize := 500, currentPage := 1, currentSongIndex := -1, isLoading := false }

/-- Function `playSongAtIndex` up to the start of its goroutine: the new
state, the effects, and the goroutine that was started (if any). -/
def playSongAtIndex (a : Application) (index : Int) :
    Application × List Effect × Option LoadTask :=
  if index < 0 ∨ index ≥ (a.totalSongs.length : Int) then (a, [], none)
  else if a.isLoading then (a, [], none)
  else
    match a.totalSongs[index.toNat]? with
    | none => (a, [], none)
    | some currentTrack =>
      ({ a with
          isLoading := true
          currentSongIndex := index
          currentSong := some currentTrack
          isPlaying := false },
        [.queueUpdateDraw (.statusLoading (index + 1) currentTrack),
         .getPlayURL currentTrack.ID],
        some { index := index, currentTrack := currentTrack, pc := .resolving })

/-- The deferred function of the load goroutine: `isLoading` is cleared, and
when the goroutine panicked `isPlaying` is cleared and the failed text is
queued. -/
def loadDeferred (a : Application) (t : LoadTask) (panicked : Bool) :
    Application × List Effect :=
  if panicked then
    ({ a with isLoading := false, isPlaying := false },
      [.queueUpdateDraw (.statusFailed (t.index + 1) t.currentTrack)])
  else ({ a with isLoading := false }, [])

/-- The load goroutine from the `select` to its next blocking point.  On the
empty URL, on a resolver panic and on the timer it returns.  Otherwise the
queue is replaced and, with an engine handle, `Stop` is called; `stopFault`
says that `Stop` panics. -/
def loadResolved (a : Application) (t : LoadTask) (r : Resolved) (stopFault : Bool) :
    Application × List Effect × Option LoadTask :=
  match r with
  | .fault => ((loadDeferred a t false).1, (loadDeferred a t false).2, none)
  | .timeout => ((loadDeferred a t false).1, (loadDeferred a t false).2, none)
  | .url playURL =>
    if playURL = "" then ((loadDeferred a t false).1, (loadDeferred a t false).2, none)
    else
      match a.mpvInstance with
      | none => ((loadDeferred a t false).1, (loadDeferred a t false).2, none)
      | some m =>
        let queue : List QueueItem :=
          [{ Id := t.currentTrack.ID, Uri := playURL, Title := t.currentTrack.Title,
             Artist := t.currentTrack.Artist, Duration := t.currentTrack.Duration }]
        let a1 := { a with mpvInstance := some { m with Queue := queue } }
        if m.Mpv then
          if stopFault then
            ((loadDeferred a1 t true).1,
              [.setQueue queue, .stop] ++ (loadDeferred a1 t true).2, none)
          else (a1, [.setQueue queue, .stop], some { t with pc := .settled playURL })
        else (a1, [.setQueue queue], some { t with pc := .settled playURL })

/-- The load goroutine from the second test of `a.mpvInstance.Mpv` to the
500 ms sleep: `Play` is called, `isPlaying` is set and the playing text is
queued; `playFault` says that `Play` panics.  Without a handle the goroutine
returns. -/
def loadPlay (a : Application) (t : LoadTask) (playURL : String) (playFault : Bool) :
    Application × List Effect × Option LoadTask :=
  match a.mpvInstance with
  | none => ((loadDeferred a t true).1, (loadDeferred a t true).2, none)
  | some m =>
    if m.Mpv then
      if playFault then
        ((loadDeferred a t true).1, [.play playURL] ++ (loadDeferred a t true).2, none)
      else
        ({ a with isPlaying := true },
          [.play playURL,
           .queueUpdateDraw (.statusPlaying (t.index + 1) t.currentTrack)],
          some { t with pc := .started })
    else ((loadDeferred a t false).1, (loadDeferred a t false).2, none)

/-- The load goroutine from the end of the 500 ms sleep: it returns. -/
def loadFinish (a : Application) (t : LoadTask) : Application × List Effect × Option LoadTask :=
  ((loadDeferred a t false).1, (loadDeferred a t false).2, none)

/-- Function `playNextSong`: the index it starts `go a.playSongAtIndex` with,
or `none` when it returns without starting one. -/
def playNextSong (a : Application) : Option Int :=
  if a.totalSongs.length = 0 then none
  else if a.isLoading then none
  else
    let nextIndex := a.currentSongIndex + 1
    some (if nextIndex ≥ (a.totalSongs.length : Int) then 0 else nextIndex)

/-- Function `playPreviousSong`: the index it starts `go a.playSongAtIndex`
with, or `none` when it returns without starting one. -/
def playPreviousSong (a : Application) : Option Int :=
  if a.totalSongs.length = 0 then none
  else if a.isLoading then none
  else
    let prevIndex := a.currentSongIndex - 1
    some (if prevIndex < 0 then (a.totalSongs.length : Int) - 1 else prevIndex)

/-- The goroutine of the space key in the input capture of `createHomepage`.
`fault` says that `Pause` panics (the panic is recovered and nothing else is
done). -/
def togglePause (a : Application) (fault : Bool) : Application × List Effect :=
  match a.mpvInstance with
  | none => (a, [])
  | some m =>
    if m.Mpv = false then (a, [])
    else if fault then (a, [.pause])
    else if a.isPlaying then
      ({ a with isPlaying := false },
        .pause :: (match a.currentSong with
          | some s => [.queueUpdateDraw (.statusPaused (a.currentSongIndex + 1) s)]
          | none => []))
    else
      ({ a with isPlaying := true },
        .pause :: (match a.currentSong with
          | some s => [.queueUpdateDraw (.statusResumed (a.currentSongIndex + 1) s)]
          | none => []))

/-- Points of the goroutine started by the space key. -/
inductive TogglePC where
  /-- Started by `go`, not yet run. -/
  | spawned
  /-- In the call `a.mpvInstance.Pause()`, after `a.isPlaying` was read as
  `wasPlaying`. -/
  | pausing (wasPlaying : Bool)
deriving DecidableEq

/-- The goroutine of the space key after `Pause` has returned, in the branch
chosen by the value `wasPlaying` it read from `a.isPlaying` before the call:
`isPlaying` is written and the text is queued. -/
def togglePauseDone (a : Application) (wasPlaying : Bool) : Application × List Effect :=
  if wasPlaying then
    ({ a with isPlaying := false },
      match a.currentSong with
      | some s => [.queueUpdateDraw (.statusPaused (a.currentSongIndex + 1) s)]
      | none => [])
  else
    ({ a with isPlaying := true },
      match a.currentSong with
      | some s => [.queueUpdateDraw (.statusResumed (a.currentSongIndex + 1) s)]
      | none => [])

/-! ## Catalog and search view model -/

/-- Go `strings.ToLower`: every rune is mapped by `unicode.ToLower`, which is
the parameter `lowerRune`. -/
def ToLower (lowerRune : Char → Char) (s : String) : String :=
  String.mk (s.data.map lowerRune)

/-- Go `strings.HasPrefix`, on the runes of the two strings. -/
def startsWith : List Char → List Char → Bool
  | _, [] => true
  | [], _ :: _ => false
  | c :: s, d :: p => c == d && startsWith s p

/-- Search of `substr` in `s` from each position in turn. -/
def containsRunes : List Char → List Char → Bool
  | [], substr => startsWith [] substr
  | c :: s, substr => startsWith (c :: s) substr || containsRunes s substr

/-- Go `strings.Contains`, on the runes of the two strings (in valid UTF-8
a run of bytes that spells `substr` starts and ends at rune boundaries). -/
def Contains (s substr : String) : Bool :=
  containsRunes s.data substr.data

/-- The condition of the `if` in the loop of `searchMusic`. -/
def songMatches (lowerRune : Char → Char) (name : String) (song : Song) : Bool :=
  Contains (ToLower lowerRune song.Title) (ToLower lowerRune name) ||
  Contains (ToLower lowerRune song.Artist) (ToLower lowerRune name) ||
  Contains (ToLower lowerRune song.Album) (ToLower lowerRune name)

/-- Go integer division of `len + pageSize - 1` by `pageSize`, the
expression assigned to `totalPages`. -/
def pagesFor (len pageSize : Int) : Int :=
  Int.tdiv (len + pageSize - 1) pageSize

/-- Function `searchMusic`.  The result is `none` when the division by
`a.pageSize` panics. -/
def searchMusic (lowerRune : Char → Char) (a : Application) (name : String) :
    Option (Application × List Effect) :=
  let matchingSongs := a.totalSongs.filter (songMatches lowerRune name)
  if matchingSongs.length > 0 then
    if a.pageSize = 0 then none
    else
      some ({ a with
                totalSongs := matchingSongs
                totalPages := pagesFor matchingSongs.length a.pageSize },
            [.queueUpdateDraw .renderSongTable])
  else some (a, [.queueUpdateDraw (.noResults name)])

/-- Function `loadMusic` together with its callers, which queue the error
text when it fails.  `fetched` is the result of `GetPlaylists` (`none` for an
error).  The result is `none` when the division by `a.pageSize` panics. -/
def loadMusic (a : Application) (fetched : Option (List Song)) :
    Option (Application × List Effect) :=
  match fetched with
  | none => some (a, [.queueUpdateDraw .statusError])
  | some songs =>
    if a.totalSongs ≠ songs then
      if a.pageSize = 0 then none
      else
        some ({ a with totalSongs := songs, totalPages := pagesFor songs.length a.pageSize },
              [.queueUpdateDraw .renderSongTable])
    else some (a, [])

/-- Function `getCurrentPageData`.  The result is `none` when the slice
expression `a.totalSongs[start:end]` panics. -/
def getCurrentPageData (a : Application) : Option (List Song) :=
  let start := (a.currentPage - 1) * a.pageSize
  let stop := min (start + a.pageSize) (a.totalSongs.length : Int)
  if 0 ≤ start ∧ start ≤ stop then
    some ((a.totalSongs.drop start.toNat).take (stop - start).toNat)
  else none

/-- The rows `renderSongTable` fills: the song at position `i` of the page
data is written to table row `i + 1` (row 0 is the header). -/
def renderSongTable (a : Application) : Option (List (Int × Song)) :=
  (getCurrentPageData a).map fun pageData =>
    List.zipWith (fun (i : Nat) (song : Song) => ((i : Int) + 1, song))
      (List.range pageData.length) pageData

/-- The function given to `songTable.SetSelectedFunc` in `createHomepage`:
the index it starts `go a.playSongAtIndex` with, or `none` when it starts
none. -/
def songTableSelected (a : Application) (row : Int) : Option Int :=
  if row > 0 ∧ row - 1 < (a.totalSongs.length : Int) then
    if a.isLoading then none else some (row - 1)
  else none

/-! ## The running program -/

/-- The program between two atomic steps: the `Application` record, the load
goroutine in flight, the indices of the `go a.playSongAtIndex(...)` calls that
were started and have not run yet, every effect so far, the goroutines of the
space key that have not ended, the rows the song table holds (table row and
song; the header row is left out) and the number of `renderSongTable`
closures that have run. -/
structure System where
  app : Application
  load : Option LoadTask
  pending : List Int
  log : List Effect
  toggles : List TogglePC := []
  table : List (Int × Song) := []
  redrawn : Nat := 0
deriving DecidableEq

/-- The atomic steps of the program. -/
inductive Action where
  /-- A call of `loadMusic` returns with the fetched list (`none`: error). -/
  | loadMusic (fetched : Option (List Song))
  /-- The search input is confirmed with a non-empty text. -/
  | searchMusic (name : String)
  /-- A table row is selected. -/
  | selectRow (row : Int)
  /-- Key `n`, `N` or Right, or an end-of-file event: `playNextSong`. -/
  | nextSong
  /-- Key `p`, `P` or Left: `playPreviousSong`. -/
  | previousSong
  /-- The `k`-th started `go a.playSongAtIndex(...)` runs. -/
  | schedule (k : Nat)
  /-- A call `playSongAtIndex(index)` that runs at once. -/
  | playAt (index : Int)
  /-- The `select` of the load goroutine receives `r`. -/
  | resolved (r : Resolved) (stopFault : Bool)
  /-- The load goroutine reaches `Play`. -/
  | play (playFault : Bool)
  /-- The 500 ms sleep of the load goroutine ends. -/
  | finish
  /-- Key space, with its goroutine running to its end before any other
  step. -/
  | togglePause (fault : Bool)
  /-- Key space: the goroutine is started. -/
  | spaceKey
  /-- The `k`-th goroutine of the space key reads `a.isPlaying` and calls
  `Pause`. -/
  | toggleRead (k : Nat)
  /-- The call of `Pause` in the `k`-th goroutine of the space key returns
  (`fault`: it panics), and the goroutine runs to its end. -/
  | toggleWrite (k : Nat) (fault : Bool)
  /-- The oldest queued `renderSongTable` closure runs. -/
  | redraw
deriving DecidableEq

/-- Run `playSongAtIndex` in a system state. -/
def System.runPlay (s : System) (index : Int) : System :=
  let r := playSongAtIndex s.app index
  { s with
      app := r.1
      log := s.log ++ r.2.1
      load := match r.2.2 with
        | some t => some t
        | none => s.load }

/-- Continue the load goroutine with the result of one of its pieces. -/
def System.continueLoad (s : System) (r : Application × List Effect × Option LoadTask) :
    System :=
  { s with app := r.1, log := s.log ++ r.2.1, load := r.2.2 }

/-- One atomic step.  A step that is not enabled (no goroutine at that
point, no such pending call) and a step in which the process dies of an
unrecovered panic leave the state as it is. -/
def step (lowerRune : Char → Char) (s : System) : Action → System
  | .loadMusic fetched =>
    match loadMusic s.app fetched with
    | some r => { s with app := r.1, log := s.log ++ r.2 }
    | none => s
  | .searchMusic name =>
    match searchMusic lowerRune s.app name with
    | some r => { s with app := r.1, log := s.log ++ r.2 }
    | none => s
  | .selectRow row =>
    match songTableSelected s.app row with
    | some index => { s with pending := s.pending ++ [index] }
    | none => s
  | .nextSong =>
    match playNextSong s.app with
    | some index => { s with pending := s.pending ++ [index] }
    | none => s
  | .previousSong =>
    match playPreviousSong s.app with
    | some index => { s with pending := s.pending ++ [index] }
    | none => s
  | .schedule k =>
    match s.pending[k]? with
    | some index => { s with pending := s.pending.eraseIdx k }.runPlay index
    | none => s
  | .playAt index => s.runPlay index
  | .resolved r stopFault =>
    match s.load with
    | some t =>
      match t.pc with
      | .resolving => s.continueLoad (loadResolved s.app t r stopFault)
      | _ => s
    | none => s
  | .play playFault =>
    match s.load with
    | some t =>
      match t.pc with
      | .settled playURL => s.continueLoad (loadPlay s.app t playURL playFault)
      | _ => s
    | none => s
  | .finish =>
    match s.load with
    | some t =>
      match t.pc with
      | .started => s.continueLoad (loadFinish s.app t)
      | _ => s
    | none => s
  | .togglePause fault =>
    let r := togglePause s.app fault
    { s with app := r.1, log := s.log ++ r.2 }
  | .spaceKey =>
    match s.app.mpvInstance with
    | none => s
    | some m => if m.Mpv = false then s else { s with toggles := s.toggles ++ [.spawned] }
  | .toggleRead k =>
    match s.toggles[k]? with
    | some .spawned =>
      { s with
          log := s.log ++ [.pause]
          toggles := s.toggles.set k (.pausing s.app.isPlaying) }
    | _ => s
  | .toggleWrite k fault =>
    match s.toggles[k]? with
    | some (.pausing wasPlaying) =>
      if fault then { s with toggles := s.toggles.eraseIdx k }
      else
        { s with
            app := (togglePauseDone s.app wasPlaying).1
            log := s.log ++ (togglePauseDone s.app wasPlaying).2
            toggles := s.toggles.eraseIdx k }
    | _ => s
  | .redraw =>
    if s.redrawn < s.log.countP Effect.isRender then
      match renderSongTable s.app with
      | some rows => { s with table := rows, redrawn := s.redrawn + 1 }
      | none => s
    else s

/-- Run a sequence of steps. -/
def run (lowerRune : Char → Char) (s : System) (acts : List Action) : System :=
  acts.foldl (step lowerRune) s

/-- The zero value of `Application` with the player built in `main`: a
non-nil handle and an empty queue. -/
def newApplication : Application :=
  { mpvInstance := some { Mpv := true, Queue := [] }
    totalSongs := []
    currentPage := 0
    pageSize := 0
    totalPages := 0
    currentSong := none
    isPlaying := false
    isLoading := false
    currentSongIndex := 0
    isSearching := false }

/-- The program after `app.setupPagination()` in `main`. -/
def initial : System :=
  { app := setupPagination newApplication, load := none, pending := [], log := [] }

/-- States the program reaches from `initial` by steps that `enabled`
admits in the state they are taken in. -/
inductive ReachableBy (lowerRune : Char → Char) (enabled : System → Action → Prop) :
    System → Prop where
  | start : ReachableBy lowerRune enabled initial
  | next {s : System} (act : Action) :
      ReachableBy lowerRune enabled s → enabled s act →
      ReachableBy lowerRune enabled (step lowerRune s act)

/-- Every step is admitted. -/
def anyStep (_ : System) (_ : Action) : Prop := True

/-- The play queue `a.mpvInstance.Queue`; without a player there is none. -/
def Application.queue (a : Application) : List QueueItem :=
  match a.mpvInstance with
  | some m => m.Queue
  | none => []

/-- Specification of the queue: every item it holds carries the id of
`currentSong`. -/
def queueInSync (a : Application) : Bool :=
  a.queue.all fun item =>
    match a.currentSong with
    | some song => item.Id == song.ID
    | none => false

/-- The effect that only an accepted `playSongAtIndex` has: the start of a URL
resolution. -/
def Effect.startsLoad : Effect → Bool
  | .getPlayURL _ => true
  | _ => false

/-- Number of `Loading` transitions so far: the accepted `playSongAtIndex`
calls in the log. -/
def System.loadsStarted (s : System) : Nat :=
  s.log.countP Effect.startsLoad

/-- The steps of an advance and of what runs beside it: `playNextSong`,
`playPreviousSong`, a started `playSongAtIndex` call that runs, the pieces of
the load goroutine, the space key and the pieces of its goroutine, and a
redraw. -/
def Action.besideAdvance : Action → Bool
  | .nextSong => true
  | .previousSong => true
  | .schedule _ => true
  | .resolved _ _ => true
  | .play _ => true
  | .finish => true
  | .togglePause _ => true
  | .spaceKey => true
  | .toggleRead _ => true
  | .toggleWrite _ _ => true
  | .redraw => true
  | _ => false

/-- A step beside an advance that does not end a load in flight. -/
def skipStep (lowerRune : Char → Char) (s : System) (act : Action) : Prop :=
  act.besideAdvance = true ∧
  (s.app.isLoading = true → (step lowerRune s act).app.isLoading = true)

/-- A sequence of steps beside an advance during which no load ends. -/
def skipRun (lowerRune : Char → Char) : System → List Action → Prop
  | _, [] => True
  | s, act :: acts => skipStep lowerRune s act ∧ skipRun lowerRune (step lowerRune s act) acts

/-- An advance over the state `s0` before one of its started calls is
accepted: no load in flight, index and catalog as in `s0`, no `Loading`
transition since `s0`, and every started call is for an index that
`playNextSong` or `playPreviousSong` requests in `s0`. -/
def skipWaiting (s0 s : System) : Prop :=
  s.app.isLoading = false ∧ s.load = none ∧
  s.app.currentSongIndex = s0.app.currentSongIndex ∧
  s.app.totalSongs = s0.app.totalSongs ∧
  s.loadsStarted = s0.loadsStarted ∧
  ∀ j ∈ s.pending, playNextSong s0.app = some j ∨ playPreviousSong s0.app = some j

/-- An advance over the state `s0` after one of its started calls was
accepted: a load is in flight, it is the one `Loading` transition since `s0`,
and the current index is one that `playNextSong` or `playPreviousSong`
requests in `s0`. -/
def skipLoading (s0 s : System) : Prop :=
  s.app.isLoading = true ∧
  s.loadsStarted = s0.loadsStarted + 1 ∧
  (playNextSong s0.app = some s.app.currentSongIndex ∨
    playPreviousSong s0.app = some s.app.currentSongIndex)

/-! ## Wording of the specification -/

/-- Specification of the search: `q` occurs in `s` as a substring when both
are compared case-insensitively, that is, some run of consecutive runes of `s`
equals `q` rune by rune once both are lowered. -/
def containsIgnoringCase (lowerRune : Char → Char) (s q : String) : Prop :=
  ∃ before mid after : List Char,
    s.data = before ++ mid ++ after ∧ mid.map lowerRune = q.data.map lowerRune

/-- Specification of the search: title, artist or album contains `q`
case-insensitively. -/
def trackContains (lowerRune : Char → Char) (q : String) (song : Song) : Prop :=
  containsIgnoringCase lowerRune song.Title q ∨
  containsIgnoringCase lowerRune song.Artist q ∨
  containsIgnoringCase lowerRune song.Album q

/-- Specification of the row selection: the absolute index
`(page-1)*pageSize + row` of data row `row`. -/
def absoluteIndex (a : Application) (row : Int) : Int :=
  (a.currentPage - 1) * a.pageSize + row

/-! ## Sample data -/

/-- A song with the given id and title. -/
def mkSong (id title : String) : Song :=
  { ID := id, Title := title, Artist := "", Album := "", Duration := 0, Size := 0 }

/-- A catalog of three tracks. -/
def catalog3 : List Song :=
  [mkSong "s0" "Alpha", mkSong "s1" "Beta", mkSong "s2" "Gamma"]

/-- The session `Playing(2)` over `catalog3`. -/
def playing2 : Application :=
  { setupPagination newApplication with
      totalSongs := catalog3
      totalPages := 1
      currentSongIndex := 2
      currentSong := some (mkSong "s2" "Gamma")
      isPlaying := true }

/-- The session `Loading(2)` over `catalog3`. -/
def loading2 : Application :=
  { playing2 with isPlaying := false, isLoading := true }

/-- The program with `catalog3` loaded and nothing requested yet. -/
def idle3 : System :=
  { app := { setupPagination newApplication with totalSongs := catalog3, totalPages := 1 }
    load := none
    pending := []
    log := [] }

/-- The program in `Playing(2)` over `catalog3`: the catalog is fetched,
`playSongAtIndex(2)` is accepted, its URL is resolved, `Play` is called and
the load ends. -/
def played2 : System :=
  run id initial [.loadMusic (some catalog3), .playAt 2,
    .resolved (.url "http://h/s2") false, .play false, .finish]

end NaviCLI

namespace NaviCLI

/-! ## Play requests while a load is in flight -/

/-- C1: in a state with `isLoading` true a play request is dropped.
`playSongAtIndex` returns the state as it is, with no effect and no load
goroutine, for every index; `playNextSong` and `playPreviousSong` start no
`playSongAtIndex`; the three steps leave the whole program state (the
session fields, the load in flight, the pending calls and the log of engine
commands, URL resolutions and queue replacements) unchanged; and a
`playSongAtIndex` call started earlier that runs now is discarded, leaving the
session, the load in flight and the log as they are. -/
theorem play_request_dropped_while_loading (lowerRune : Char → Char) (s : System)
    (h : s.app.isLoading = true) (i : Int) :
    playSongAtIndex s.app i = (s.app, [], none) ∧
    playNextSong s.app = none ∧
    playPreviousSong s.app = none ∧
    step lowerRune s (.playAt i) = s ∧
    step lowerRune s .nextSong = s ∧
    step lowerRune s .previousSong = s ∧
    ∀ k, (step lowerRune s (.schedule k)).app = s.app ∧
      (step lowerRune s (.schedule k)).load = s.load ∧
      (step lowerRune s (.schedule k)).log = s.log := by
  have hdrop : ∀ j, playSongAtIndex s.app j = (s.app, [], none) := by
    intro j
    unfold playSongAtIndex
    split
    · rfl
    · simp [h]
  have h1 : playSongAtIndex s.app i = (s.app, [], none) := by
    unfold playSongAtIndex
    split
    · rfl
    · simp [h]
  have h2 : playNextSong s.app = none := by
    unfold playNextSong
    split
    · rfl
    · simp [h]
  have h3 : playPreviousSong s.app = none := by
    unfold playPreviousSong
    split
    · rfl
    · simp [h]
  refine ⟨h1, h2, h3, ?_, ?_, ?_, ?_⟩
  · simp [step, System.runPlay, h1]
  · simp [step, h2]
  · simp [step, h3]
  · intro k
    cases hk : s.pending[k]? with
    | none => simp [step, hk]
    | some j => simp [step, hk, System.runPlay, hdrop j]

/-- Witness of C1: the state `Loading(2)` over three tracks, request for
index 0. -/
theorem play_request_dropped_while_loading_witness :
    loading2.isLoading = true ∧
    playSongAtIndex loading2 0 = (loading2, [], none) ∧
    playNextSong loading2 = none ∧
    playPreviousSong loading2 = none :=
  have h := play_request_dropped_while_loading id
    { app := loading2, load := none, pending := [], log := [] } rfl 0
  ⟨rfl, h.1, h.2.1, h.2.2.1⟩

/-- A valid index reads a track of the catalog. -/
theorem valid_index_track (songs : List Song) (i : Int) (h0 : 0 ≤ i)
    (h1 : i < (songs.length : Int)) :
    ∃ track, songs[i.toNat]? = some track := by
  have hlt : i.toNat < songs.length := by omega
  exact ⟨songs[i.toNat], List.getElem?_eq_getElem hlt⟩

/-- The result of `playSongAtIndex` on a valid index when no load is in
flight. -/
theorem playSongAtIndex_accepts (a : Application) (i : Int) (track : Song)
    (h0 : 0 ≤ i) (h1 : i < (a.totalSongs.length : Int))
    (hl : a.isLoading = false) (ht : a.totalSongs[i.toNat]? = some track) :
    playSongAtIndex a i =
      ({ a with
          isLoading := true
          currentSongIndex := i
          currentSong := some track
          isPlaying := false },
        [.queueUpdateDraw (.statusLoading (i + 1) track), .getPlayURL track.ID],
        some { index := i, currentTrack := track, pc := .resolving }) := by
  unfold playSongAtIndex
  have hn : ¬ (i < 0 ∨ i ≥ (a.totalSongs.length : Int)) := by omega
  simp only [hn, if_false, hl, ht]
  simp

/-- C2: for a valid index `i` and `isLoading` false, `playSongAtIndex`
returns the state `Loading(i)`: `isLoading` true, `currentSongIndex = i`,
`currentSong` a copy of the catalog's track at `i`, `isPlaying` false, every
other field as before; the load goroutine it started is still blocked on the
URL resolution, and the only effects are the loading text and the start of
the resolution. -/
theorem playSongAtIndex_enters_loading (a : Application) (i : Int)
    (h0 : 0 ≤ i) (h1 : i < (a.totalSongs.length : Int)) (hl : a.isLoading = false) :
    ∃ track, a.totalSongs[i.toNat]? = some track ∧
      (playSongAtIndex a i).1 =
        { a with
            isLoading := true
            currentSongIndex := i
            currentSong := some track
            isPlaying := false } ∧
      (playSongAtIndex a i).2.1 =
        [.queueUpdateDraw (.statusLoading (i + 1) track), .getPlayURL track.ID] ∧
      (playSongAtIndex a i).2.2 =
        some { index := i, currentTrack := track, pc := .resolving } := by
  obtain ⟨track, ht⟩ := valid_index_track a.totalSongs i h0 h1
  refine ⟨track, ht, ?_⟩
  rw [playSongAtIndex_accepts a i track h0 h1 hl ht]
  exact ⟨rfl, rfl, rfl⟩

/-- Witness of C2: `playAt(0)` from `Playing(2)` over three tracks. -/
theorem playSongAtIndex_enters_loading_witness :
    (0 : Int) ≤ 0 ∧ (0 : Int) < (playing2.totalSongs.length : Int) ∧
    playing2.isLoading = false ∧
    ∃ track, playing2.totalSongs[(0 : Int).toNat]? = some track ∧
      (playSongAtIndex playing2 0).1 =
        { playing2 with
            isLoading := true
            currentSongIndex := 0
            currentSong := some track
            isPlaying := false } ∧
      (playSongAtIndex playing2 0).2.1 =
        [.queueUpdateDraw (.statusLoading (0 + 1) track), .getPlayURL track.ID] ∧
      (playSongAtIndex playing2 0).2.2 =
        some { index := 0, currentTrack := track, pc := .resolving } :=
  ⟨by decide, by decide, rfl,
    playSongAtIndex_enters_loading playing2 0 (by decide) (by decide) rfl⟩

/-! ## Advance -/

/-- With the index in range, `playNextSong` requests `(current + 1) mod count`. -/
theorem playNextSong_mod (a : Application) (hl : a.isLoading = false)
    (h0 : 0 ≤ a.currentSongIndex) (h1 : a.currentSongIndex < (a.totalSongs.length : Int)) :
    playNextSong a = some ((a.currentSongIndex + 1) % (a.totalSongs.length : Int)) := by
  have hne : a.totalSongs.length ≠ 0 := by omega
  unfold playNextSong
  simp only [hne, if_false, hl, Bool.false_eq_true]
  by_cases hc : a.currentSongIndex + 1 ≥ (a.totalSongs.length : Int)
  · have he : a.currentSongIndex + 1 = (a.totalSongs.length : Int) := by omega
    simp [he]
  · rw [if_neg hc, Int.emod_eq_of_lt (by omega) (by omega)]

/-- With the index in range, `playPreviousSong` requests
`(current - 1) mod count`. -/
theorem playPreviousSong_mod (a : Application) (hl : a.isLoading = false)
    (h0 : 0 ≤ a.currentSongIndex) (h1 : a.currentSongIndex < (a.totalSongs.length : Int)) :
    playPreviousSong a = some ((a.currentSongIndex - 1) % (a.totalSongs.length : Int)) := by
  have hne : a.totalSongs.length ≠ 0 := by omega
  unfold playPreviousSong
  simp only [hne, if_false, hl, Bool.false_eq_true]
  by_cases hc : a.currentSongIndex - 1 < 0
  · have he : a.currentSongIndex = 0 := by omega
    have hm : (-1 : Int) % (a.totalSongs.length : Int) = (a.totalSongs.length : Int) - 1 := by
      rw [← Int.add_emod_self, Int.emod_eq_of_lt (by omega) (by omega)]
      omega
    simp [he, hm]
  · rw [if_neg hc, Int.emod_eq_of_lt (by omega) (by omega)]

/-- C4: on an empty catalog `playNextSong` and `playPreviousSong` start no
`playSongAtIndex`.  With `count` tracks, the current index in `[0, count)`
and no load in flight, each starts exactly one, for the index
`(current + Delta) mod count`, which lies in `[0, count)`: the step adds just
that index to the started calls and changes nothing else; from the last
index `playNextSong` requests index 0 and from index 0 `playPreviousSong`
requests the last index. -/
theorem advance_wraps (lowerRune : Char → Char) (s : System) :
    (s.app.totalSongs.length = 0 →
      playNextSong s.app = none ∧ playPreviousSong s.app = none ∧
      step lowerRune s .nextSong = s ∧ step lowerRune s .previousSong = s) ∧
    (s.app.isLoading = false → 0 ≤ s.app.currentSongIndex →
      s.app.currentSongIndex < (s.app.totalSongs.length : Int) →
      playNextSong s.app =
        some ((s.app.currentSongIndex + 1) % (s.app.totalSongs.length : Int)) ∧
      playPreviousSong s.app =
        some ((s.app.currentSongIndex - 1) % (s.app.totalSongs.length : Int)) ∧
      step lowerRune s .nextSong =
        { s with pending := s.pending ++
            [(s.app.currentSongIndex + 1) % (s.app.totalSongs.length : Int)] } ∧
      step lowerRune s .previousSong =
        { s with pending := s.pending ++
            [(s.app.currentSongIndex - 1) % (s.app.totalSongs.length : Int)] } ∧
      0 ≤ (s.app.currentSongIndex + 1) % (s.app.totalSongs.length : Int) ∧
      (s.app.currentSongIndex + 1) % (s.app.totalSongs.length : Int) <
        (s.app.totalSongs.length : Int) ∧
      0 ≤ (s.app.currentSongIndex - 1) % (s.app.totalSongs.length : Int) ∧
      (s.app.currentSongIndex - 1) % (s.app.totalSongs.length : Int) <
        (s.app.totalSongs.length : Int) ∧
      (s.app.currentSongIndex = (s.app.totalSongs.length : Int) - 1 →
        playNextSong s.app = some 0) ∧
      (s.app.currentSongIndex = 0 →
        playPreviousSong s.app = some ((s.app.totalSongs.length : Int) - 1))) := by
  constructor
  · intro he
    have hn : playNextSong s.app = none := by simp [playNextSong, he]
    have hp : playPreviousSong s.app = none := by simp [playPreviousSong, he]
    exact ⟨hn, hp, by simp [step, hn], by simp [step, hp]⟩
  · intro hl h0 h1
    have hn := playNextSong_mod s.app hl h0 h1
    have hp := playPreviousSong_mod s.app hl h0 h1
    have hpos : (0 : Int) < (s.app.totalSongs.length : Int) := by omega
    have hne : (s.app.totalSongs.length : Int) ≠ 0 := by omega
    refine ⟨hn, hp, by simp [step, hn], by simp [step, hp],
      Int.emod_nonneg _ hne, Int.emod_lt_of_pos _ hpos,
      Int.emod_nonneg _ hne, Int.emod_lt_of_pos _ hpos, ?_, ?_⟩
    · intro hlast
      rw [hn, hlast]
      simp
    · intro hfirst
      have hm : ((0 : Int) - 1) % (s.app.totalSongs.length : Int) =
          (s.app.totalSongs.length : Int) - 1 := by
        rw [← Int.add_emod_self, Int.emod_eq_of_lt (by omega) (by omega)]
        omega
      rw [hp, hfirst, hm]

/-- Witness of C4: three tracks, current index 2: `playNextSong` starts
exactly one `playSongAtIndex(0)`, and that call gives `Loading(0)`. -/
theorem advance_wraps_witness :
    playing2.isLoading = false ∧ (0 : Int) ≤ playing2.currentSongIndex ∧
    playing2.currentSongIndex < (playing2.totalSongs.length : Int) ∧
    playNextSong playing2 = some 0 ∧
    (step id { app := playing2, load := none, pending := [], log := [] } .nextSong).pending
      = [0] ∧
    (playSongAtIndex playing2 0).1.isLoading = true ∧
    (playSongAtIndex playing2 0).1.currentSongIndex = 0 :=
  have h := (advance_wraps id
    { app := playing2, load := none, pending := [], log := [] }).2 rfl (by decide) (by decide)
  ⟨rfl, by decide, by decide, h.1, by rw [h.2.2.1]; rfl, rfl, rfl⟩

/-! ## Failed loads -/

/-- C6, evaluated: `playSongAtIndex(0)` on three tracks.  When the resolver
returns the empty URL, panics or times out, the load ends (`isLoading`
false, no goroutine left) and the only display update in the log is the
loading text: the text with the "(Failed)" marker is not queued.  When
instead `Stop` panics after a successful resolution, the deferred function
queues the failed text with the title of the requested track. -/
theorem failed_text_only_after_engine_fault :
    (run id idle3 [.playAt 0, .resolved (.url "") false]).log =
      [.queueUpdateDraw (.statusLoading 1 (mkSong "s0" "Alpha")), .getPlayURL "s0"] ∧
    (run id idle3 [.playAt 0, .resolved .fault false]).log =
      [.queueUpdateDraw (.statusLoading 1 (mkSong "s0" "Alpha")), .getPlayURL "s0"] ∧
    (run id idle3 [.playAt 0, .resolved .timeout false]).log =
      [.queueUpdateDraw (.statusLoading 1 (mkSong "s0" "Alpha")), .getPlayURL "s0"] ∧
    (run id idle3 [.playAt 0, .resolved .timeout false]).app.isLoading = false ∧
    (run id idle3 [.playAt 0, .resolved .timeout false]).load = none ∧
    Effect.queueUpdateDraw (.statusFailed 1 (mkSong "s0" "Alpha")) ∉
      (run id idle3 [.playAt 0, .resolved .timeout false]).log ∧
    Effect.queueUpdateDraw (.statusFailed 1 (mkSong "s0" "Alpha")) ∈
      (run id idle3 [.playAt 0, .resolved (.url "http://h/s0") true]).log := by
  refine ⟨rfl, rfl, rfl, rfl, rfl, ?_, ?_⟩ <;> decide

/-! ## Pause toggle -/

/-- C7: with an engine session and `isPlaying` true, one toggle clears
`isPlaying` and changes nothing else (`Paused(i)`), a second toggle gives
back the state before the first; each toggle calls `Pause` once, so the
engine commands of the two toggles together are exactly two `Pause`. -/
theorem togglePause_twice (a : Application) (m : Mpvplayer)
    (hm : a.mpvInstance = some m) (hh : m.Mpv = true) (hp : a.isPlaying = true) :
    (togglePause a false).1 = { a with isPlaying := false } ∧
    (togglePause (togglePause a false).1 false).1 = a ∧
    (togglePause a false).2.filter Effect.isEngineCommand = [.pause] ∧
    (togglePause (togglePause a false).1 false).2.filter Effect.isEngineCommand = [.pause] ∧
    ((togglePause a false).2 ++ (togglePause (togglePause a false).1 false).2).filter
      Effect.isEngineCommand = [.pause, .pause] := by
  have e1 : togglePause a false =
      ({ a with isPlaying := false },
        .pause :: (match a.currentSong with
          | some s => [.queueUpdateDraw (.statusPaused (a.currentSongIndex + 1) s)]
          | none => [])) := by
    simp [togglePause, hm, hh, hp]
  have e2 : togglePause { a with isPlaying := false } false =
      (a, .pause :: (match a.currentSong with
          | some s => [.queueUpdateDraw (.statusResumed (a.currentSongIndex + 1) s)]
          | none => [])) := by
    cases a
    simp_all [togglePause]
  rw [e1]
  simp only [e2]
  cases a.currentSong <;> simp [Effect.isEngineCommand, List.filter]

/-- Witness of C7: two toggles from `Playing(2)` over three tracks. -/
theorem togglePause_twice_witness :
    playing2.mpvInstance = some { Mpv := true, Queue := [] } ∧
    playing2.isPlaying = true ∧
    (togglePause playing2 false).1 = { playing2 with isPlaying := false } ∧
    (togglePause (togglePause playing2 false).1 false).1 = playing2 ∧
    ((togglePause playing2 false).2 ++
      (togglePause (togglePause playing2 false).1 false).2).filter
      Effect.isEngineCommand = [.pause, .pause] :=
  have h := togglePause_twice playing2 { Mpv := true, Queue := [] } rfl rfl rfl
  ⟨rfl, rfl, h.1, h.2.1, h.2.2.2.2⟩

/-! ## Search -/

/-- `startsWith s p` holds exactly when `s` begins with `p`. -/
theorem startsWith_iff (s p : List Char) :
    startsWith s p = true ↔ ∃ after, s = p ++ after := by
  induction s generalizing p with
  | nil =>
    cases p with
    | nil => simp [startsWith]
    | cons d p => simp [startsWith]
  | cons c s ih =>
    cases p with
    | nil => simp [startsWith]
    | cons d p =>
      simp only [startsWith, Bool.and_eq_true, beq_iff_eq, ih, List.cons_append,
        List.cons.injEq]
      constructor
      · rintro ⟨hcd, after, hs⟩
        exact ⟨after, hcd, hs⟩
      · rintro ⟨after, hcd, hs⟩
        exact ⟨hcd, after, hs⟩

/-- `containsRunes s substr` holds exactly when `substr` is a run of
consecutive runes of `s`. -/
theorem containsRunes_iff (s substr : List Char) :
    containsRunes s substr = true ↔ ∃ before after, s = before ++ substr ++ after := by
  induction s with
  | nil =>
    simp only [containsRunes, startsWith_iff]
    constructor
    · rintro ⟨after, h⟩
      exact ⟨[], after, by simpa using h⟩
    · rintro ⟨before, after, h⟩
      have h2 := congrArg List.length h
      simp only [List.length_nil, List.length_append] at h2
      have hb : before = [] := List.eq_nil_of_length_eq_zero (by omega)
      subst hb
      exact ⟨after, by simpa using h⟩
  | cons c s ih =>
    simp only [containsRunes, Bool.or_eq_true, startsWith_iff, ih]
    constructor
    · rintro (⟨after, h⟩ | ⟨before, after, h⟩)
      · exact ⟨[], after, by simpa using h⟩
      · exact ⟨c :: before, after, by simp [h]⟩
    · rintro ⟨before, after, h⟩
      cases before with
      | nil => exact Or.inl ⟨after, by simpa using h⟩
      | cons b before =>
        simp only [List.cons_append, List.cons.injEq] at h
        exact Or.inr ⟨before, after, h.2⟩

/-- The test of the code, lower both strings and search one in the other, is
the case-insensitive containment of the specification. -/
theorem Contains_ToLower_iff (lowerRune : Char → Char) (s q : String) :
    Contains (ToLower lowerRune s) (ToLower lowerRune q) = true ↔
      containsIgnoringCase lowerRune s q := by
  simp only [Contains, ToLower, containsRunes_iff, containsIgnoringCase]
  constructor
  · rintro ⟨before, after, h⟩
    obtain ⟨l1, l3, h1, h2, h3⟩ := List.map_eq_append_iff.mp h
    obtain ⟨l0, l2, h4, h5, h6⟩ := List.map_eq_append_iff.mp h2
    exact ⟨l0, l2, l3, by rw [h1, h4], h6⟩
  · rintro ⟨before, mid, after, h1, h2⟩
    exact ⟨before.map lowerRune, after.map lowerRune, by simp [h1, h2]⟩

/-- The condition in the loop of `searchMusic` is the match of the
specification. -/
theorem songMatches_iff (lowerRune : Char → Char) (name : String) (song : Song) :
    songMatches lowerRune name song = true ↔ trackContains lowerRune name song := by
  simp only [songMatches, trackContains, Bool.or_eq_true, Contains_ToLower_iff, or_assoc]

/-- C8: `searchMusic` with query `name` (any query, in particular a
non-empty one) on a catalog with a usable page size.  When some track of the
held catalog has the query in its title, artist or album, compared
case-insensitively, the catalog becomes the held catalog filtered by that
condition (a sub-sequence in the original order) and the table is rebuilt;
when no track has, the whole state (catalog and `totalPages` included) is
left as it is and the "no results" text is queued instead of the rebuild. -/
theorem searchMusic_filters (lowerRune : Char → Char) (a : Application) (name : String)
    (hsize : a.pageSize ≠ 0) :
    ∃ keep : Song → Bool,
      (∀ song, keep song = true ↔ trackContains lowerRune name song) ∧
      (a.totalSongs.filter keep).Sublist a.totalSongs ∧
      ((∃ song ∈ a.totalSongs, trackContains lowerRune name song) →
        searchMusic lowerRune a name =
          some ({ a with
                    totalSongs := a.totalSongs.filter keep
                    totalPages := pagesFor (a.totalSongs.filter keep).length a.pageSize },
                [.queueUpdateDraw .renderSongTable])) ∧
      ((¬ ∃ song ∈ a.totalSongs, trackContains lowerRune name song) →
        searchMusic lowerRune a name = some (a, [.queueUpdateDraw (.noResults name)])) := by
  refine ⟨songMatches lowerRune name, songMatches_iff lowerRune name,
    List.filter_sublist _, ?_, ?_⟩
  · rintro ⟨song, hmem, hmatch⟩
    have hin : song ∈ a.totalSongs.filter (songMatches lowerRune name) :=
      List.mem_filter.mpr ⟨hmem, (songMatches_iff lowerRune name song).mpr hmatch⟩
    have hpos : (a.totalSongs.filter (songMatches lowerRune name)).length > 0 :=
      List.length_pos_of_mem hin
    simp only [searchMusic, hpos, if_true, hsize, if_false]
  · intro hnone
    have hnil : a.totalSongs.filter (songMatches lowerRune name) = [] := by
      rw [List.filter_eq_nil_iff]
      intro song hmem hmatch
      exact hnone ⟨song, hmem, (songMatches_iff lowerRune name song).mp hmatch⟩
    simp [searchMusic, hnil]

/-- Witness of C8: three tracks, query "ALP" with ASCII lowering: only
"Alpha" is kept. -/
theorem searchMusic_filters_witness :
    idle3.app.pageSize ≠ 0 ∧
    (∃ song ∈ idle3.app.totalSongs, trackContains Char.toLower "ALP" song) ∧
    searchMusic Char.toLower idle3.app "ALP" =
      some ({ idle3.app with totalSongs := [mkSong "s0" "Alpha"], totalPages := 1 },
            [.queueUpdateDraw .renderSongTable]) ∧
    ∃ keep : Song → Bool,
      (∀ song, keep song = true ↔ trackContains Char.toLower "ALP" song) ∧
      (idle3.app.totalSongs.filter keep).Sublist idle3.app.totalSongs ∧
      ((∃ song ∈ idle3.app.totalSongs, trackContains Char.toLower "ALP" song) →
        searchMusic Char.toLower idle3.app "ALP" =
          some ({ idle3.app with
                    totalSongs := idle3.app.totalSongs.filter keep
                    totalPages :=
                      pagesFor (idle3.app.totalSongs.filter keep).length idle3.app.pageSize },
                [.queueUpdateDraw .renderSongTable])) ∧
      ((¬ ∃ song ∈ idle3.app.totalSongs, trackContains Char.toLower "ALP" song) →
        searchMusic Char.toLower idle3.app "ALP" =
          some (idle3.app, [.queueUpdateDraw (.noResults "ALP")])) :=
  ⟨by decide,
    ⟨mkSong "s0" "Alpha", by simp [idle3, catalog3],
      Or.inl ⟨[], ['A', 'l', 'p'], ['h', 'a'], rfl, by decide⟩⟩,
    by decide,
    searchMusic_filters Char.toLower idle3.app "ALP" (by decide)⟩

/-! ## Row selection -/

/-- On page 1 the page data is the catalog cut at the page size. -/
theorem getCurrentPageData_first_page (a : Application) (hpage : a.currentPage = 1)
    (hsize : 0 < a.pageSize) :
    getCurrentPageData a = some (a.totalSongs.take a.pageSize.toNat) := by
  unfold getCurrentPageData
  simp only [hpage, sub_self, zero_mul, zero_add, le_refl, true_and]
  have hmin : (0 : Int) ≤ min a.pageSize (a.totalSongs.length : Int) :=
    le_min hsize.le (Int.ofNat_nonneg _)
  rw [if_pos hmin]
  simp only [Int.toNat_zero, List.drop_zero, sub_zero, Option.some.injEq]
  by_cases hc : a.pageSize ≤ (a.totalSongs.length : Int)
  · rw [min_eq_left hc]
  · have hle : (a.totalSongs.length : Int) ≤ a.pageSize := by omega
    rw [min_eq_right hle, Int.toNat_ofNat]
    rw [List.take_of_length_le (le_refl _), List.take_of_length_le (by omega)]

/-- On page 1 with a page size `> 0`: for data row `row` of the page (table
row `row + 1`) the selection handler, with no load in flight, starts
`playSongAtIndex` with the absolute index `(page-1)*pageSize + row`, which is
`row`, the index of the track that `getCurrentPageData` has at position `row`
and that `renderSongTable` writes to that table row. -/
theorem row_on_first_page (a : Application) (data : List Song) (row : Nat)
    (hpage : a.currentPage = 1) (hsize : 0 < a.pageSize)
    (hd : getCurrentPageData a = some data) (hrow : row < data.length) :
    (a.isLoading = false →
      songTableSelected a ((row : Int) + 1) = some (absoluteIndex a row)) ∧
    absoluteIndex a row = row ∧
    ∃ song, data[row]? = some song ∧
      a.totalSongs[(absoluteIndex a row).toNat]? = some song ∧
      (renderSongTable a).map (fun rows => rows[row]?) =
        some (some ((row : Int) + 1, song)) := by
  have hidx : absoluteIndex a row = row := by simp [absoluteIndex, hpage]
  rw [getCurrentPageData_first_page a hpage hsize] at hd
  have hdata : data = a.totalSongs.take a.pageSize.toNat := (Option.some.inj hd).symm
  have hlen : row < a.totalSongs.length := by
    rw [hdata, List.length_take] at hrow
    omega
  have hps : row < a.pageSize.toNat := by
    rw [hdata, List.length_take] at hrow
    omega
  have hsel : a.isLoading = false →
      songTableSelected a ((row : Int) + 1) = some (row : Int) := by
    intro hl
    unfold songTableSelected
    have hg : (row : Int) + 1 > 0 ∧ (row : Int) + 1 - 1 < (a.totalSongs.length : Int) := by
      omega
    simp [hg, hl, hlen]
  have hsong : data[row]? = some data[row] := List.getElem?_eq_getElem hrow
  have htot : a.totalSongs[row]? = some data[row] := by
    rw [← hsong, hdata, List.getElem?_take_of_lt hps]
  refine ⟨fun hl => by rw [hsel hl, hidx], hidx, data[row], hsong, ?_, ?_⟩
  · rw [hidx, Int.toNat_ofNat, htot]
  · unfold renderSongTable
    rw [getCurrentPageData_first_page a hpage hsize, ← hdata]
    simp only [Option.map_some', List.getElem?_zipWith, List.getElem?_range hrow, hsong]

/-! ## Playing and loading -/

/-- After `Pause` the goroutine of the space key writes only `isPlaying`; it
starts no load and issues no `Stop`, no `Play` and no queue replacement. -/
theorem togglePauseDone_frame (a : Application) (wasPlaying : Bool) :
    (togglePauseDone a wasPlaying).1.mpvInstance = a.mpvInstance ∧
    (togglePauseDone a wasPlaying).1.currentSong = a.currentSong ∧
    (togglePauseDone a wasPlaying).1.currentSongIndex = a.currentSongIndex ∧
    (togglePauseDone a wasPlaying).1.totalSongs = a.totalSongs ∧
    (togglePauseDone a wasPlaying).1.isLoading = a.isLoading ∧
    (togglePauseDone a wasPlaying).1.currentPage = a.currentPage ∧
    (togglePauseDone a wasPlaying).1.pageSize = a.pageSize ∧
    (togglePauseDone a wasPlaying).2.countP Effect.startsLoad = 0 := by
  unfold togglePauseDone
  split
  · refine ⟨rfl, rfl, rfl, rfl, rfl, rfl, rfl, ?_⟩
    cases a.currentSong <;> rfl
  · refine ⟨rfl, rfl, rfl, rfl, rfl, rfl, rfl, ?_⟩
    cases a.currentSong <;> rfl

/-- The space key with its goroutine run in one piece is the call of `Pause`
followed by the write for the value of `isPlaying` read before the call. -/
theorem togglePause_pieces (a : Application) (m : Mpvplayer)
    (hm : a.mpvInstance = some m) (hh : m.Mpv = true) :
    togglePause a false =
      ((togglePauseDone a a.isPlaying).1, .pause :: (togglePauseDone a a.isPlaying).2) := by
  unfold togglePause togglePauseDone
  simp only [hm, hh]
  cases a.isPlaying <;> simp

/-- The start of a space-key goroutine, its call of `Pause` and a redraw
leave the `Application` record, the load goroutine and the started calls as
they are, and add at most a `Pause` to the log. -/
theorem step_light (lowerRune : Char → Char) (s : System) (act : Action)
    (h : act = .spaceKey ∨ (∃ k, act = .toggleRead k) ∨ act = .redraw) :
    (step lowerRune s act).app = s.app ∧ (step lowerRune s act).load = s.load ∧
    (step lowerRune s act).pending = s.pending ∧
    ((step lowerRune s act).log = s.log ∨ (step lowerRune s act).log = s.log ++ [.pause]) := by
  rcases h with rfl | ⟨k, rfl⟩ | rfl
  · simp only [step]
    split
    · exact ⟨rfl, rfl, rfl, Or.inl rfl⟩
    · split
      · exact ⟨rfl, rfl, rfl, Or.inl rfl⟩
      · exact ⟨rfl, rfl, rfl, Or.inl rfl⟩
  · simp only [step]
    split
    · exact ⟨rfl, rfl, rfl, Or.inr rfl⟩
    · exact ⟨rfl, rfl, rfl, Or.inl rfl⟩
  · simp only [step]
    split
    · split
      · exact ⟨rfl, rfl, rfl, Or.inl rfl⟩
      · exact ⟨rfl, rfl, rfl, Or.inl rfl⟩
    · exact ⟨rfl, rfl, rfl, Or.inl rfl⟩

/-- The end of a space-key goroutine leaves the load goroutine and the
started calls as they are; it leaves record and log too, or it writes
`isPlaying` for the value read before `Pause` and queues the text. -/
theorem step_toggleWrite (lowerRune : Char → Char) (s : System) (k : Nat) (fault : Bool) :
    (step lowerRune s (.toggleWrite k fault)).load = s.load ∧
    (step lowerRune s (.toggleWrite k fault)).pending = s.pending ∧
    (((step lowerRune s (.toggleWrite k fault)).app = s.app ∧
        (step lowerRune s (.toggleWrite k fault)).log = s.log) ∨
      ∃ wasPlaying,
        (step lowerRune s (.toggleWrite k fault)).app = (togglePauseDone s.app wasPlaying).1 ∧
        (step lowerRune s (.toggleWrite k fault)).log =
          s.log ++ (togglePauseDone s.app wasPlaying).2) := by
  simp only [step]
  split
  · split
    · exact ⟨rfl, rfl, Or.inl ⟨rfl, rfl⟩⟩
    · exact ⟨rfl, rfl, Or.inr ⟨_, rfl, rfl⟩⟩
  · exact ⟨rfl, rfl, Or.inl ⟨rfl, rfl⟩⟩

/-- `playSongAtIndex` either drops the request or clears `isPlaying` and
starts a goroutine. -/
theorem playSongAtIndex_cases (a : Application) (i : Int) :
    playSongAtIndex a i = (a, [], none) ∨
    ((playSongAtIndex a i).1.isPlaying = false ∧ (playSongAtIndex a i).1.isLoading = true ∧
      (playSongAtIndex a i).1.currentPage = a.currentPage ∧
      (playSongAtIndex a i).1.pageSize = a.pageSize) := by
  unfold playSongAtIndex
  split
  · exact Or.inl rfl
  · split
    · exact Or.inl rfl
    · split
      · exact Or.inl rfl
      · exact Or.inr ⟨rfl, rfl, rfl, rfl⟩

/-- `loadMusic` leaves the two flags and the page fields, apart from
`totalPages`, as they are. -/
theorem loadMusic_keeps (a : Application) (fetched : Option (List Song))
    (r : Application × List Effect) (h : loadMusic a fetched = some r) :
    r.1.isLoading = a.isLoading ∧ r.1.isPlaying = a.isPlaying ∧
    r.1.currentPage = a.currentPage ∧ r.1.pageSize = a.pageSize := by
  unfold loadMusic at h
  split at h
  · cases h
    exact ⟨rfl, rfl, rfl, rfl⟩
  · split at h
    · split at h
      · cases h
      · cases h
        exact ⟨rfl, rfl, rfl, rfl⟩
    · cases h
      exact ⟨rfl, rfl, rfl, rfl⟩

/-- `searchMusic` leaves the two flags and the page fields, apart from
`totalPages`, as they are. -/
theorem searchMusic_keeps (lowerRune : Char → Char) (a : Application) (name : String)
    (r : Application × List Effect) (h : searchMusic lowerRune a name = some r) :
    r.1.isLoading = a.isLoading ∧ r.1.isPlaying = a.isPlaying ∧
    r.1.currentPage = a.currentPage ∧ r.1.pageSize = a.pageSize := by
  unfold searchMusic at h
  simp only at h
  split at h
  · split at h
    · cases h
    · cases h
      exact ⟨rfl, rfl, rfl, rfl⟩
  · cases h
    exact ⟨rfl, rfl, rfl, rfl⟩

/-- The deferred function clears `isLoading`. -/
theorem loadDeferred_keeps (a : Application) (t : LoadTask) (panicked : Bool) :
    (loadDeferred a t panicked).1.isLoading = false ∧
    (loadDeferred a t panicked).1.currentPage = a.currentPage ∧
    (loadDeferred a t panicked).1.pageSize = a.pageSize := by
  unfold loadDeferred
  split <;> exact ⟨rfl, rfl, rfl⟩

/-- The load goroutine does not write the page fields at the `select`. -/
theorem loadResolved_page (a : Application) (t : LoadTask) (r : Resolved)
    (stopFault : Bool) :
    (loadResolved a t r stopFault).1.currentPage = a.currentPage ∧
    (loadResolved a t r stopFault).1.pageSize = a.pageSize := by
  unfold loadResolved
  split
  · exact (loadDeferred_keeps a t false).2
  · exact (loadDeferred_keeps a t false).2
  · split
    · exact (loadDeferred_keeps a t false).2
    · split
      · exact (loadDeferred_keeps a t false).2
      · simp only
        split
        · split
          · exact (loadDeferred_keeps _ t true).2
          · exact ⟨rfl, rfl⟩
        · exact ⟨rfl, rfl⟩

/-- The load goroutine does not write the page fields at `Play`. -/
theorem loadPlay_page (a : Application) (t : LoadTask) (playURL : String)
    (playFault : Bool) :
    (loadPlay a t playURL playFault).1.currentPage = a.currentPage ∧
    (loadPlay a t playURL playFault).1.pageSize = a.pageSize := by
  unfold loadPlay
  split
  · exact (loadDeferred_keeps a t true).2
  · split
    · split
      · exact (loadDeferred_keeps a t true).2
      · exact ⟨rfl, rfl⟩
    · exact (loadDeferred_keeps a t false).2

/-- The space key leaves `isLoading` as it is. -/
theorem togglePause_isLoading (a : Application) (fault : Bool) :
    (togglePause a fault).1.isLoading = a.isLoading := by
  unfold togglePause
  split
  · rfl
  · split
    · rfl
    · split
      · rfl
      · split <;> rfl

/-- Every run from `initial` ends in a reachable state. -/
theorem run_reachable (lowerRune : Char → Char) (acts : List Action) (s : System)
    (h : ReachableBy lowerRune anyStep s) :
    ReachableBy lowerRune anyStep (run lowerRune s acts) := by
  induction acts generalizing s with
  | nil => exact h
  | cons act acts ih => exact ih _ (ReachableBy.next act h trivial)

/-- A space key pressed with no load in flight still sets `isPlaying` during
a load when its goroutine reads `isPlaying` before the play request is
accepted and writes after: both flags are true while the load goroutine
waits for its URL. -/
theorem late_toggle_write_sets_playing :
    (run id initial [.loadMusic (some catalog3), .spaceKey]).app.isLoading = false ∧
    (run id initial [.loadMusic (some catalog3), .spaceKey, .toggleRead 0, .playAt 0,
      .toggleWrite 0 false]).app.isLoading = true ∧
    (run id initial [.loadMusic (some catalog3), .spaceKey, .toggleRead 0, .playAt 0,
      .toggleWrite 0 false]).app.isPlaying = true ∧
    (run id initial [.loadMusic (some catalog3), .spaceKey, .toggleRead 0, .playAt 0,
      .toggleWrite 0 false]).load =
      some { index := 0, currentTrack := mkSong "s0" "Alpha", pc := .resolving } := by
  decide

/-- Nothing changes `currentPage` and `pageSize` after `setupPagination`:
in every reachable state the page is 1 and the page size is 500. -/
theorem reachable_first_page (lowerRune : Char → Char) (s : System)
    (h : ReachableBy lowerRune anyStep s) :
    s.app.currentPage = 1 ∧ s.app.pageSize = 500 := by
  induction h with
  | start => exact ⟨rfl, rfl⟩
  | @next s act _ _ ih =>
    have hplay : ∀ (s0 : System) (index : Int), s0.app = s.app →
        (s0.runPlay index).app.currentPage = 1 ∧ (s0.runPlay index).app.pageSize = 500 := by
      intro s0 index happ
      rcases playSongAtIndex_cases s0.app index with hc | hc
      · simp only [System.runPlay, hc]
        rw [happ]
        exact ih
      · simp only [System.runPlay]
        rw [hc.2.2.1, hc.2.2.2, happ]
        exact ih
    cases act with
    | loadMusic fetched =>
      simp only [step]
      cases hr : loadMusic s.app fetched with
      | none => exact ih
      | some r =>
        obtain ⟨-, -, k1, k2⟩ := loadMusic_keeps s.app fetched r hr
        simp only [k1, k2]
        exact ih
    | searchMusic name =>
      simp only [step]
      cases hr : searchMusic lowerRune s.app name with
      | none => exact ih
      | some r =>
        obtain ⟨-, -, k1, k2⟩ := searchMusic_keeps lowerRune s.app name r hr
        simp only [k1, k2]
        exact ih
    | selectRow row =>
      simp only [step]
      cases songTableSelected s.app row <;> exact ih
    | nextSong =>
      simp only [step]
      cases playNextSong s.app <;> exact ih
    | previousSong =>
      simp only [step]
      cases playPreviousSong s.app <;> exact ih
    | schedule k =>
      simp only [step]
      cases s.pending[k]? with
      | none => exact ih
      | some index => exact hplay _ index rfl
    | playAt index => exact hplay s index rfl
    | resolved r stopFault =>
      cases hload : s.load with
      | none => simpa [step, hload] using ih
      | some t =>
        cases hpc : t.pc with
        | resolving =>
          simp only [step, hload, hpc, System.continueLoad]
          rw [(loadResolved_page s.app t r stopFault).1, (loadResolved_page s.app t r stopFault).2]
          exact ih
        | settled playURL => simpa [step, hload, hpc] using ih
        | started => simpa [step, hload, hpc] using ih
    | play playFault =>
      cases hload : s.load with
      | none => simpa [step, hload] using ih
      | some t =>
        cases hpc : t.pc with
        | resolving => simpa [step, hload, hpc] using ih
        | settled playURL =>
          simp only [step, hload, hpc, System.continueLoad]
          rw [(loadPlay_page s.app t playURL playFault).1,
            (loadPlay_page s.app t playURL playFault).2]
          exact ih
        | started => simpa [step, hload, hpc] using ih
    | finish =>
      cases hload : s.load with
      | none => simpa [step, hload] using ih
      | some t =>
        cases hpc : t.pc with
        | resolving => simpa [step, hload, hpc] using ih
        | settled playURL => simpa [step, hload, hpc] using ih
        | started =>
          simp only [step, hload, hpc, System.continueLoad, loadFinish]
          rw [(loadDeferred_keeps s.app t false).2.1, (loadDeferred_keeps s.app t false).2.2]
          exact ih
    | togglePause fault =>
      simp only [step, togglePause]
      repeat' split
      all_goals exact ih
    | spaceKey =>
      rw [(step_light lowerRune s .spaceKey (Or.inl rfl)).1]
      exact ih
    | toggleRead k =>
      rw [(step_light lowerRune s (.toggleRead k) (Or.inr (Or.inl ⟨k, rfl⟩))).1]
      exact ih
    | redraw =>
      rw [(step_light lowerRune s .redraw (Or.inr (Or.inr rfl))).1]
      exact ih
    | toggleWrite k fault =>
      obtain ⟨-, -, h3⟩ := step_toggleWrite lowerRune s k fault
      rcases h3 with ⟨ha, -⟩ | ⟨wasPlaying, ha, -⟩
      · rw [ha]
        exact ih
      · obtain ⟨-, -, -, -, -, k1, k2, -⟩ := togglePauseDone_frame s.app wasPlaying
        rw [ha, k1, k2]
        exact ih

/-! ## The play queue -/

/-- `playSongAtIndex` either drops the request or returns the state
`Loading(i)` with a goroutine blocked on the resolver. -/
theorem playSongAtIndex_result (a : Application) (i : Int) :
    playSongAtIndex a i = (a, [], none) ∨
    ∃ track, playSongAtIndex a i =
      ({ a with
          isLoading := true
          currentSongIndex := i
          currentSong := some track
          isPlaying := false },
        [.queueUpdateDraw (.statusLoading (i + 1) track), .getPlayURL track.ID],
        some { index := i, currentTrack := track, pc := .resolving }) := by
  unfold playSongAtIndex
  split
  · exact Or.inl rfl
  · split
    · exact Or.inl rfl
    · split
      · exact Or.inl rfl
      · exact Or.inr ⟨_, rfl⟩

/-- The deferred function writes only the two flags, and starts no load. -/
theorem loadDeferred_frame (a : Application) (t : LoadTask) (panicked : Bool) :
    (loadDeferred a t panicked).1.mpvInstance = a.mpvInstance ∧
    (loadDeferred a t panicked).1.currentSong = a.currentSong ∧
    (loadDeferred a t panicked).1.currentSongIndex = a.currentSongIndex ∧
    (loadDeferred a t panicked).1.totalSongs = a.totalSongs ∧
    (loadDeferred a t panicked).2.countP Effect.startsLoad = 0 := by
  unfold loadDeferred
  split <;> exact ⟨rfl, rfl, rfl, rfl, rfl⟩

/-- At the `select` the goroutine either leaves the queue and ends, or
replaces the queue by the one item of its own track. -/
theorem loadResolved_queue (a : Application) (t : LoadTask) (r : Resolved)
    (stopFault : Bool) :
    (loadResolved a t r stopFault).1.currentSong = a.currentSong ∧
    (((loadResolved a t r stopFault).1.queue = a.queue ∧
        (loadResolved a t r stopFault).2.2 = none) ∨
      ∃ item, (loadResolved a t r stopFault).1.queue = [item] ∧
        item.Id = t.currentTrack.ID ∧
        ((loadResolved a t r stopFault).2.2 = none ∨
          ∃ playURL,
            (loadResolved a t r stopFault).2.2 = some { t with pc := .settled playURL })) := by
  have hd : ∀ b : Application, ∀ p : Bool,
      (loadDeferred b t p).1.currentSong = b.currentSong ∧
      (loadDeferred b t p).1.queue = b.queue := by
    intro b p
    obtain ⟨h1, h2, -, -, -⟩ := loadDeferred_frame b t p
    exact ⟨h2, by simp only [Application.queue, h1]⟩
  unfold loadResolved
  split
  · exact ⟨(hd a false).1, Or.inl ⟨(hd a false).2, rfl⟩⟩
  · exact ⟨(hd a false).1, Or.inl ⟨(hd a false).2, rfl⟩⟩
  · split
    · exact ⟨(hd a false).1, Or.inl ⟨(hd a false).2, rfl⟩⟩
    · split
      · exact ⟨(hd a false).1, Or.inl ⟨(hd a false).2, rfl⟩⟩
      · simp only
        split
        · split
          · rename_i playURL _ _ m _ _ _
            refine ⟨(hd _ true).1, Or.inr
              ⟨{ Id := t.currentTrack.ID, Uri := playURL, Title := t.currentTrack.Title,
                 Artist := t.currentTrack.Artist, Duration := t.currentTrack.Duration },
                ?_, rfl, Or.inl rfl⟩⟩
            rw [(hd _ true).2]
            rfl
          · exact ⟨rfl, Or.inr ⟨_, rfl, rfl, Or.inr ⟨_, rfl⟩⟩⟩
        · exact ⟨rfl, Or.inr ⟨_, rfl, rfl, Or.inr ⟨_, rfl⟩⟩⟩

/-- At `Play` the goroutine leaves the queue and the current song as they
are, and ends or goes to its last sleep. -/
theorem loadPlay_queue (a : Application) (t : LoadTask) (playURL : String)
    (playFault : Bool) :
    (loadPlay a t playURL playFault).1.queue = a.queue ∧
    (loadPlay a t playURL playFault).1.currentSong = a.currentSong ∧
    ((loadPlay a t playURL playFault).2.2 = none ∨
      (loadPlay a t playURL playFault).2.2 = some { t with pc := .started }) := by
  have hd : ∀ p : Bool,
      (loadDeferred a t p).1.queue = a.queue ∧
      (loadDeferred a t p).1.currentSong = a.currentSong := by
    intro p
    obtain ⟨h1, h2, -, -, -⟩ := loadDeferred_frame a t p
    exact ⟨by simp only [Application.queue, h1], h2⟩
  unfold loadPlay
  split
  · exact ⟨(hd true).1, (hd true).2, Or.inl rfl⟩
  · split
    · split
      · exact ⟨(hd true).1, (hd true).2, Or.inl rfl⟩
      · exact ⟨rfl, rfl, Or.inr rfl⟩
    · exact ⟨(hd false).1, (hd false).2, Or.inl rfl⟩

/-- The space key writes only `isPlaying`, and starts no load. -/
theorem togglePause_frame (a : Application) (fault : Bool) :
    (togglePause a fault).1.mpvInstance = a.mpvInstance ∧
    (togglePause a fault).1.currentSong = a.currentSong ∧
    (togglePause a fault).1.currentSongIndex = a.currentSongIndex ∧
    (togglePause a fault).1.totalSongs = a.totalSongs ∧
    (togglePause a fault).2.countP Effect.startsLoad = 0 := by
  unfold togglePause
  split
  · exact ⟨rfl, rfl, rfl, rfl, rfl⟩
  · split
    · exact ⟨rfl, rfl, rfl, rfl, rfl⟩
    · split
      · exact ⟨rfl, rfl, rfl, rfl, rfl⟩
      · split
        · refine ⟨rfl, rfl, rfl, rfl, ?_⟩
          cases a.currentSong <;> rfl
        · refine ⟨rfl, rfl, rfl, rfl, ?_⟩
          cases a.currentSong <;> rfl

/-- `loadMusic` leaves the player and the current song as they are. -/
theorem loadMusic_queue (a : Application) (fetched : Option (List Song))
    (r : Application × List Effect) (h : loadMusic a fetched = some r) :
    r.1.mpvInstance = a.mpvInstance ∧ r.1.currentSong = a.currentSong := by
  unfold loadMusic at h
  split at h
  · cases h
    exact ⟨rfl, rfl⟩
  · split at h
    · split at h
      · cases h
      · cases h
        exact ⟨rfl, rfl⟩
    · cases h
      exact ⟨rfl, rfl⟩

/-- `searchMusic` leaves the player and the current song as they are. -/
theorem searchMusic_queue (lowerRune : Char → Char) (a : Application) (name : String)
    (r : Application × List Effect) (h : searchMusic lowerRune a name = some r) :
    r.1.mpvInstance = a.mpvInstance ∧ r.1.currentSong = a.currentSong := by
  unfold searchMusic at h
  simp only at h
  split at h
  · split at h
    · cases h
    · cases h
      exact ⟨rfl, rfl⟩
  · cases h
    exact ⟨rfl, rfl⟩

/-- What one step does to the queue, the current song and the load
goroutine: it leaves queue and song and moves the goroutine on or not at
all; or it accepts a play request, which sets the song and starts a
goroutine; or it is a successful resolution, which replaces the queue by the
item of the goroutine's track. -/
theorem step_queue_cases (lowerRune : Char → Char) (s : System) (act : Action) :
    ((step lowerRune s act).app.queue = s.app.queue ∧
      (step lowerRune s act).app.currentSong = s.app.currentSong ∧
      ((step lowerRune s act).load = s.load ∨ (step lowerRune s act).load = none ∨
        ∃ t playURL, s.load = some t ∧ t.pc = .settled playURL ∧
          (step lowerRune s act).load = some { t with pc := .started })) ∨
    ((step lowerRune s act).app.queue = s.app.queue ∧
      ∃ track index, (step lowerRune s act).app.currentSong = some track ∧
        (step lowerRune s act).load =
          some { index := index, currentTrack := track, pc := .resolving }) ∨
    (∃ t item, s.load = some t ∧ t.pc = .resolving ∧
      (step lowerRune s act).app.queue = [item] ∧ item.Id = t.currentTrack.ID ∧
      (step lowerRune s act).app.currentSong = s.app.currentSong ∧
      ((step lowerRune s act).load = none ∨
        ∃ playURL, (step lowerRune s act).load = some { t with pc := .settled playURL })) := by
  have hsame : ∀ s1 : System, s1.app = s.app → s1.load = s.load →
      s1.app.queue = s.app.queue ∧ s1.app.currentSong = s.app.currentSong ∧
      (s1.load = s.load ∨ s1.load = none ∨
        ∃ t playURL, s.load = some t ∧ t.pc = .settled playURL ∧
          s1.load = some { t with pc := .started }) := by
    intro s1 h1 h2
    exact ⟨by rw [h1], by rw [h1], Or.inl h2⟩
  have hplay : ∀ (s0 : System) (index : Int), s0.app = s.app → s0.load = s.load →
      ((s0.runPlay index).app.queue = s.app.queue ∧
        (s0.runPlay index).app.currentSong = s.app.currentSong ∧
        ((s0.runPlay index).load = s.load ∨ (s0.runPlay index).load = none ∨
          ∃ t playURL, s.load = some t ∧ t.pc = .settled playURL ∧
            (s0.runPlay index).load = some { t with pc := .started })) ∨
      ((s0.runPlay index).app.queue = s.app.queue ∧
        ∃ track i, (s0.runPlay index).app.currentSong = some track ∧
          (s0.runPlay index).load =
            some { index := i, currentTrack := track, pc := .resolving }) := by
    intro s0 index happ hload
    rcases playSongAtIndex_result s0.app index with hc | ⟨track, hc⟩
    · left
      simp only [System.runPlay, hc]
      exact ⟨by rw [happ], by rw [happ], Or.inl hload⟩
    · right
      simp only [System.runPlay, hc]
      exact ⟨by rw [← happ]; rfl, track, index, rfl, rfl⟩
  cases act with
  | loadMusic fetched =>
    left
    cases hr : loadMusic s.app fetched with
    | none => simp [step, hr]
    | some r =>
      obtain ⟨k1, k2⟩ := loadMusic_queue s.app fetched r hr
      have e : step lowerRune s (.loadMusic fetched) =
          { s with app := r.1, log := s.log ++ r.2 } := by
        simp only [step, hr]
      rw [e]
      exact ⟨by simp only [Application.queue, k1], k2, Or.inl rfl⟩
  | searchMusic name =>
    left
    cases hr : searchMusic lowerRune s.app name with
    | none => simp [step, hr]
    | some r =>
      obtain ⟨k1, k2⟩ := searchMusic_queue lowerRune s.app name r hr
      have e : step lowerRune s (.searchMusic name) =
          { s with app := r.1, log := s.log ++ r.2 } := by
        simp only [step, hr]
      rw [e]
      exact ⟨by simp only [Application.queue, k1], k2, Or.inl rfl⟩
  | selectRow row =>
    left
    simp only [step]
    cases songTableSelected s.app row <;> exact hsame _ rfl rfl
  | nextSong =>
    left
    simp only [step]
    cases playNextSong s.app <;> exact hsame _ rfl rfl
  | previousSong =>
    left
    simp only [step]
    cases playPreviousSong s.app <;> exact hsame _ rfl rfl
  | schedule k =>
    cases hk : s.pending[k]? with
    | none =>
      left
      simp [step, hk]
    | some index =>
      simp only [step, hk]
      rcases hplay { s with pending := s.pending.eraseIdx k } index rfl rfl with h | h
      · exact Or.inl h
      · exact Or.inr (Or.inl h)
  | playAt index =>
    simp only [step]
    rcases hplay s index rfl rfl with h | h
    · exact Or.inl h
    · exact Or.inr (Or.inl h)
  | resolved r stopFault =>
    cases hload : s.load with
    | none =>
      left
      simp [step, hload]
    | some t =>
      cases hpc : t.pc with
      | resolving =>
        simp only [step, hload, hpc, System.continueLoad]
        obtain ⟨k1, k2⟩ := loadResolved_queue s.app t r stopFault
        rcases k2 with ⟨q, l⟩ | ⟨item, q, hid, l⟩
        · exact Or.inl ⟨q, k1, Or.inr (Or.inl l)⟩
        · exact Or.inr (Or.inr ⟨t, item, rfl, hpc, q, hid, k1, l⟩)
      | settled playURL =>
        left
        simp [step, hload, hpc]
      | started =>
        left
        simp [step, hload, hpc]
  | play playFault =>
    left
    cases hload : s.load with
    | none => simp [step, hload]
    | some t =>
      cases hpc : t.pc with
      | resolving => simp [step, hload, hpc]
      | settled playURL =>
        simp only [step, hload, hpc, System.continueLoad]
        obtain ⟨k1, k2, k3⟩ := loadPlay_queue s.app t playURL playFault
        refine ⟨k1, k2, ?_⟩
        rcases k3 with l | l
        · exact Or.inr (Or.inl l)
        · exact Or.inr (Or.inr ⟨t, playURL, rfl, hpc, l⟩)
      | started => simp [step, hload, hpc]
  | finish =>
    left
    cases hload : s.load with
    | none => simp [step, hload]
    | some t =>
      cases hpc : t.pc with
      | resolving => simp [step, hload, hpc]
      | settled playURL => simp [step, hload, hpc]
      | started =>
        have e : step lowerRune s .finish = s.continueLoad (loadFinish s.app t) := by
          simp only [step, hload, hpc]
        rw [e]
        obtain ⟨h1, h2, -, -, -⟩ := loadDeferred_frame s.app t false
        refine ⟨?_, h2, Or.inr (Or.inl rfl)⟩
        show (loadDeferred s.app t false).1.queue = s.app.queue
        simp only [Application.queue, h1]
  | togglePause fault =>
    left
    obtain ⟨h1, h2, -, -, -⟩ := togglePause_frame s.app fault
    refine ⟨?_, h2, Or.inl rfl⟩
    show (togglePause s.app fault).1.queue = s.app.queue
    simp only [Application.queue, h1]
  | spaceKey =>
    left
    obtain ⟨h1, h2, -, -⟩ := step_light lowerRune s .spaceKey (Or.inl rfl)
    exact ⟨by rw [h1], by rw [h1], Or.inl h2⟩
  | toggleRead k =>
    left
    obtain ⟨h1, h2, -, -⟩ := step_light lowerRune s (.toggleRead k) (Or.inr (Or.inl ⟨k, rfl⟩))
    exact ⟨by rw [h1], by rw [h1], Or.inl h2⟩
  | redraw =>
    left
    obtain ⟨h1, h2, -, -⟩ := step_light lowerRune s .redraw (Or.inr (Or.inr rfl))
    exact ⟨by rw [h1], by rw [h1], Or.inl h2⟩
  | toggleWrite k fault =>
    left
    obtain ⟨h2, -, h3⟩ := step_toggleWrite lowerRune s k fault
    rcases h3 with ⟨ha, -⟩ | ⟨wasPlaying, ha, -⟩
    · exact ⟨by rw [ha], by rw [ha], Or.inl h2⟩
    · obtain ⟨k1, k2, -, -, -, -, -, -⟩ := togglePauseDone_frame s.app wasPlaying
      exact ⟨by rw [ha]; simp only [Application.queue, k1], by rw [ha, k2], Or.inl h2⟩

/-- `queueInSync` depends only on the queue and the current song. -/
theorem queueInSync_congr (a b : Application) (hq : b.queue = a.queue)
    (hc : b.currentSong = a.currentSong) : queueInSync b = queueInSync a := by
  unfold queueInSync
  rw [hq, hc]

/-- A queue of one item with the id of the current song is in sync. -/
theorem queueInSync_single (a : Application) (item : QueueItem) (song : Song)
    (hq : a.queue = [item]) (hc : a.currentSong = some song) (hid : item.Id = song.ID) :
    queueInSync a = true := by
  simp [queueInSync, hq, hc, hid]

/-- In every reachable state the queue has at most one item, the current song
is the track captured by the load goroutine in flight, and once that
goroutine is past the resolution the queue is the one item of its track. -/
theorem queue_invariant (lowerRune : Char → Char) (s : System)
    (h : ReachableBy lowerRune anyStep s) :
    s.app.queue.length ≤ 1 ∧
    (∀ t, s.load = some t → s.app.currentSong = some t.currentTrack) ∧
    (∀ t, s.load = some t → t.pc ≠ .resolving →
      ∃ item, s.app.queue = [item] ∧ item.Id = t.currentTrack.ID) := by
  induction h with
  | start =>
    refine ⟨by decide, ?_, ?_⟩
    · intro t ht
      cases ht
    · intro t ht
      cases ht
  | @next s act _ _ ih =>
    obtain ⟨i1, i2, i3⟩ := ih
    rcases step_queue_cases lowerRune s act with
      ⟨hq, hc, hl⟩ | ⟨hq, track, index, hc, hl⟩ | ⟨t, item, hst, hpc, hq, hid, hc, hl⟩
    · rw [hq, hc]
      rcases hl with hl | hl | ⟨t, playURL, hst, hpc, hl⟩
      · rw [hl]
        exact ⟨i1, i2, i3⟩
      · rw [hl]
        refine ⟨i1, ?_, ?_⟩
        · intro t ht
          cases ht
        · intro t ht
          cases ht
      · rw [hl]
        refine ⟨i1, ?_, ?_⟩
        · intro t1 ht1
          cases ht1
          exact i2 t hst
        · intro t1 ht1 _
          cases ht1
          exact i3 t hst (by rw [hpc]; exact fun hh => by cases hh)
    · rw [hq, hc, hl]
      refine ⟨i1, ?_, ?_⟩
      · intro t ht
        cases ht
        rfl
      · intro t ht hne
        cases ht
        exact absurd rfl hne
    · rw [hq, hc]
      refine ⟨by simp, ?_, ?_⟩
      · intro t1 ht1
        rcases hl with hl | ⟨playURL, hl⟩
        · rw [hl] at ht1
          cases ht1
        · rw [hl] at ht1
          cases ht1
          exact i2 t hst
      · intro t1 ht1 _
        rcases hl with hl | ⟨playURL, hl⟩
        · rw [hl] at ht1
          cases ht1
        · rw [hl] at ht1
          cases ht1
          exact ⟨item, rfl, hid⟩

/-- C11, counterexample: from `Playing(2)` over three tracks the request
`playSongAtIndex(0)` is accepted.  The current song is now track `s0` while
the queue still holds the item of track `s2`; and when the resolution then
times out, the load ends and the queue stays that way.  Both states are
reachable and have one item in the queue whose id is not the id of the
current song. -/
theorem queue_behind_current_song :
    ReachableBy id anyStep (run id played2 [.playAt 0]) ∧
    (run id played2 [.playAt 0]).app.currentSong = some (mkSong "s0" "Alpha") ∧
    (run id played2 [.playAt 0]).app.queue.map QueueItem.Id = ["s2"] ∧
    queueInSync (run id played2 [.playAt 0]).app = false ∧
    ReachableBy id anyStep (run id played2 [.playAt 0, .resolved .timeout false]) ∧
    (run id played2 [.playAt 0, .resolved .timeout false]).app.isLoading = false ∧
    (run id played2 [.playAt 0, .resolved .timeout false]).app.currentSong =
      some (mkSong "s0" "Alpha") ∧
    (run id played2 [.playAt 0, .resolved .timeout false]).app.queue.map QueueItem.Id
      = ["s2"] ∧
    queueInSync (run id played2 [.playAt 0, .resolved .timeout false]).app = false :=
  ⟨run_reachable id _ _ (run_reachable id _ initial ReachableBy.start),
    by decide, by decide, by decide,
    run_reachable id _ _ (run_reachable id _ initial ReachableBy.start),
    by decide, by decide, by decide, by decide⟩

/-- C11, amended: in every reachable state the queue holds at most one item.
The queue is replaced when the URL resolution of a load succeeds: while the
load goroutine is past the resolution (waiting for `Play` or in the sleep
after it) the queue holds exactly one item and its id is the id of the
current song; and a queue that is in sync with the current song stays in
sync under every step that leaves the current song as it is. -/
theorem queue_follows_resolved_track (lowerRune : Char → Char) (s : System)
    (h : ReachableBy lowerRune anyStep s) :
    s.app.queue.length ≤ 1 ∧
    (∀ t, s.load = some t → t.pc ≠ .resolving →
      ∃ item song, s.app.queue = [item] ∧ s.app.currentSong = some song ∧
        item.Id = song.ID) ∧
    (∀ act, queueInSync s.app = true →
      (step lowerRune s act).app.currentSong = s.app.currentSong →
      queueInSync (step lowerRune s act).app = true) := by
  obtain ⟨i1, i2, i3⟩ := queue_invariant lowerRune s h
  refine ⟨i1, ?_, ?_⟩
  · intro t ht hne
    obtain ⟨item, hq, hid⟩ := i3 t ht hne
    exact ⟨item, t.currentTrack, hq, i2 t ht, hid⟩
  · intro act hsync hsame
    rcases step_queue_cases lowerRune s act with
      ⟨hq, hc, _⟩ | ⟨hq, _, _, _, _⟩ | ⟨t, item, hst, _, hq, hid, hc, _⟩
    · rw [queueInSync_congr s.app _ hq hc]
      exact hsync
    · rw [queueInSync_congr s.app _ hq hsame]
      exact hsync
    · exact queueInSync_single _ item t.currentTrack hq (by rw [hc]; exact i2 t hst) hid

/-- Witness of C11 amended: from `Playing(2)` the request for track 0 is
accepted and its URL is resolved. -/
theorem queue_follows_resolved_track_witness :
    ReachableBy id anyStep
      (run id played2 [.playAt 0, .resolved (.url "http://h/s0") false]) ∧
    (run id played2 [.playAt 0, .resolved (.url "http://h/s0") false]).app.queue.length
      ≤ 1 ∧
    ∃ item song,
      (run id played2 [.playAt 0, .resolved (.url "http://h/s0") false]).app.queue
        = [item] ∧
      (run id played2 [.playAt 0, .resolved (.url "http://h/s0") false]).app.currentSong
        = some song ∧
      item.Id = song.ID :=
  have hr : ReachableBy id anyStep
      (run id played2 [.playAt 0, .resolved (.url "http://h/s0") false]) :=
    run_reachable id _ _ (run_reachable id _ initial ReachableBy.start)
  have h := queue_follows_resolved_track id _ hr
  ⟨hr, h.1,
    h.2.1 { index := 0, currentTrack := mkSong "s0" "Alpha", pc := .settled "http://h/s0" }
      (by decide) (by decide)⟩

/-! ## Advances that overlap -/

/-- `playNextSong` reads only the catalog, `isLoading` and the index. -/
theorem playNextSong_congr (a b : Application) (h1 : a.totalSongs = b.totalSongs)
    (h2 : a.isLoading = b.isLoading) (h3 : a.currentSongIndex = b.currentSongIndex) :
    playNextSong a = playNextSong b := by
  unfold playNextSong
  rw [h1, h2, h3]

/-- `playPreviousSong` reads only the catalog, `isLoading` and the index. -/
theorem playPreviousSong_congr (a b : Application) (h1 : a.totalSongs = b.totalSongs)
    (h2 : a.isLoading = b.isLoading) (h3 : a.currentSongIndex = b.currentSongIndex) :
    playPreviousSong a = playPreviousSong b := by
  unfold playPreviousSong
  rw [h1, h2, h3]

/-- While a load is in flight the three entry points do nothing. -/
theorem requests_dropped_of_loading (a : Application) (h : a.isLoading = true) :
    playNextSong a = none ∧ playPreviousSong a = none ∧
    ∀ j, playSongAtIndex a j = (a, [], none) := by
  refine ⟨?_, ?_, ?_⟩
  · unfold playNextSong
    split
    · rfl
    · simp [h]
  · unfold playPreviousSong
    split
    · rfl
    · simp [h]
  · intro j
    unfold playSongAtIndex
    split
    · rfl
    · simp [h]

/-- At the `select` the goroutine writes neither index nor catalog and
starts no load. -/
theorem loadResolved_frame (a : Application) (t : LoadTask) (r : Resolved)
    (stopFault : Bool) :
    (loadResolved a t r stopFault).1.currentSongIndex = a.currentSongIndex ∧
    (loadResolved a t r stopFault).1.totalSongs = a.totalSongs ∧
    (loadResolved a t r stopFault).2.1.countP Effect.startsLoad = 0 := by
  have hd : ∀ b : Application, ∀ p : Bool,
      (loadDeferred b t p).1.currentSongIndex = b.currentSongIndex ∧
      (loadDeferred b t p).1.totalSongs = b.totalSongs ∧
      (loadDeferred b t p).2.countP Effect.startsLoad = 0 := by
    intro b p
    obtain ⟨-, -, h3, h4, h5⟩ := loadDeferred_frame b t p
    exact ⟨h3, h4, h5⟩
  unfold loadResolved
  split
  · exact hd a false
  · exact hd a false
  · split
    · exact hd a false
    · split
      · exact hd a false
      · simp only
        split
        · split
          · refine ⟨(hd _ true).1, (hd _ true).2.1, ?_⟩
            rw [List.countP_append, (hd _ true).2.2]
            rfl
          · exact ⟨rfl, rfl, rfl⟩
        · exact ⟨rfl, rfl, rfl⟩

/-- At `Play` the goroutine writes neither index nor catalog and starts no
load. -/
theorem loadPlay_frame (a : Application) (t : LoadTask) (playURL : String)
    (playFault : Bool) :
    (loadPlay a t playURL playFault).1.currentSongIndex = a.currentSongIndex ∧
    (loadPlay a t playURL playFault).1.totalSongs = a.totalSongs ∧
    (loadPlay a t playURL playFault).2.1.countP Effect.startsLoad = 0 := by
  have hd : ∀ p : Bool,
      (loadDeferred a t p).1.currentSongIndex = a.currentSongIndex ∧
      (loadDeferred a t p).1.totalSongs = a.totalSongs ∧
      (loadDeferred a t p).2.countP Effect.startsLoad = 0 := by
    intro p
    obtain ⟨-, -, h3, h4, h5⟩ := loadDeferred_frame a t p
    exact ⟨h3, h4, h5⟩
  unfold loadPlay
  split
  · exact hd true
  · split
    · split
      · refine ⟨(hd true).1, (hd true).2.1, ?_⟩
        rw [List.countP_append, (hd true).2.2]
        rfl
      · exact ⟨rfl, rfl, rfl⟩
    · exact hd false

/-- Continuing the load goroutine with a piece that writes neither index
nor catalog and starts no load keeps index, catalog, started calls and the
number of loads. -/
theorem continueLoad_frame (s : System) (r : Application × List Effect × Option LoadTask)
    (h : r.1.currentSongIndex = s.app.currentSongIndex ∧
      r.1.totalSongs = s.app.totalSongs ∧ r.2.1.countP Effect.startsLoad = 0) :
    (s.continueLoad r).app.currentSongIndex = s.app.currentSongIndex ∧
    (s.continueLoad r).app.totalSongs = s.app.totalSongs ∧
    (s.continueLoad r).pending = s.pending ∧
    (s.continueLoad r).loadsStarted = s.loadsStarted := by
  refine ⟨h.1, h.2.1, rfl, ?_⟩
  show (s.log ++ r.2.1).countP Effect.startsLoad = s.log.countP Effect.startsLoad
  rw [List.countP_append, h.2.2, Nat.add_zero]

/-- The pieces of the load goroutine and the space key keep index, catalog,
started calls and the number of loads; without a goroutine they leave
`isLoading` and start no goroutine. -/
theorem step_goroutine_frame (lowerRune : Char → Char) (s : System) (act : Action)
    (hact : (∃ r stopFault, act = .resolved r stopFault) ∨ (∃ playFault, act = .play playFault) ∨
      act = .finish ∨ (∃ fault, act = .togglePause fault) ∨
      (act = .spaceKey ∨ (∃ k, act = .toggleRead k) ∨ act = .redraw) ∨
      ∃ k fault, act = .toggleWrite k fault) :
    (step lowerRune s act).app.currentSongIndex = s.app.currentSongIndex ∧
    (step lowerRune s act).app.totalSongs = s.app.totalSongs ∧
    (step lowerRune s act).pending = s.pending ∧
    (step lowerRune s act).loadsStarted = s.loadsStarted ∧
    (s.load = none → (step lowerRune s act).load = none ∧
      (step lowerRune s act).app.isLoading = s.app.isLoading) := by
  have hsame : ∀ s1 : System, s1 = s →
      s1.app.currentSongIndex = s.app.currentSongIndex ∧
      s1.app.totalSongs = s.app.totalSongs ∧ s1.pending = s.pending ∧
      s1.loadsStarted = s.loadsStarted ∧
      (s.load = none → s1.load = none ∧ s1.app.isLoading = s.app.isLoading) := by
    intro s1 h1
    subst h1
    exact ⟨rfl, rfl, rfl, rfl, fun h => ⟨h, rfl⟩⟩
  have hcont : ∀ (t : LoadTask) (r : Application × List Effect × Option LoadTask),
      s.load = some t →
      r.1.currentSongIndex = s.app.currentSongIndex ∧
      r.1.totalSongs = s.app.totalSongs ∧ r.2.1.countP Effect.startsLoad = 0 →
      (s.continueLoad r).app.currentSongIndex = s.app.currentSongIndex ∧
      (s.continueLoad r).app.totalSongs = s.app.totalSongs ∧
      (s.continueLoad r).pending = s.pending ∧
      (s.continueLoad r).loadsStarted = s.loadsStarted ∧
      (s.load = none → (s.continueLoad r).load = none ∧
        (s.continueLoad r).app.isLoading = s.app.isLoading) := by
    intro t r hload hr
    obtain ⟨k1, k2, k3, k4⟩ := continueLoad_frame s r hr
    refine ⟨k1, k2, k3, k4, ?_⟩
    intro hnone
    rw [hload] at hnone
    cases hnone
  rcases hact with ⟨r, stopFault, rfl⟩ | ⟨playFault, rfl⟩ | rfl | ⟨fault, rfl⟩ | hlight |
    ⟨k, fault, rfl⟩
  rotate_left 4
  · obtain ⟨h1, h2, h3, h4⟩ := step_light lowerRune s act hlight
    refine ⟨by rw [h1], by rw [h1], h3, ?_, fun hnone => ⟨by rw [h2]; exact hnone, by rw [h1]⟩⟩
    rcases h4 with h4 | h4
    · simp only [System.loadsStarted, h4]
    · simp only [System.loadsStarted, h4, List.countP_append]
      rfl
  · obtain ⟨h2, h3, h4⟩ := step_toggleWrite lowerRune s k fault
    rcases h4 with ⟨ha, hlog⟩ | ⟨wasPlaying, ha, hlog⟩
    · exact ⟨by rw [ha], by rw [ha], h3, by simp only [System.loadsStarted, hlog],
        fun hnone => ⟨by rw [h2]; exact hnone, by rw [ha]⟩⟩
    · obtain ⟨-, -, k3, k4, k5, -, -, k8⟩ := togglePauseDone_frame s.app wasPlaying
      refine ⟨by rw [ha, k3], by rw [ha, k4], h3, ?_,
        fun hnone => ⟨by rw [h2]; exact hnone, by rw [ha, k5]⟩⟩
      simp only [System.loadsStarted, hlog, List.countP_append, k8, Nat.add_zero]
  · rcases Option.eq_none_or_eq_some s.load with hload | ⟨t, hload⟩
    · exact hsame (step lowerRune s (.resolved r stopFault)) (by simp [step, hload])
    · cases hpc : t.pc with
      | resolving =>
        have e : step lowerRune s (.resolved r stopFault) =
            s.continueLoad (loadResolved s.app t r stopFault) := by
          simp only [step, hload, hpc]
        rw [e]
        exact hcont t _ hload (loadResolved_frame s.app t r stopFault)
      | settled playURL =>
        exact hsame (step lowerRune s (.resolved r stopFault)) (by simp [step, hload, hpc])
      | started =>
        exact hsame (step lowerRune s (.resolved r stopFault)) (by simp [step, hload, hpc])
  · rcases Option.eq_none_or_eq_some s.load with hload | ⟨t, hload⟩
    · exact hsame (step lowerRune s (.play playFault)) (by simp [step, hload])
    · cases hpc : t.pc with
      | resolving =>
        exact hsame (step lowerRune s (.play playFault)) (by simp [step, hload, hpc])
      | settled playURL =>
        have e : step lowerRune s (.play playFault) =
            s.continueLoad (loadPlay s.app t playURL playFault) := by
          simp only [step, hload, hpc]
        rw [e]
        exact hcont t _ hload (loadPlay_frame s.app t playURL playFault)
      | started =>
        exact hsame (step lowerRune s (.play playFault)) (by simp [step, hload, hpc])
  · rcases Option.eq_none_or_eq_some s.load with hload | ⟨t, hload⟩
    · exact hsame (step lowerRune s .finish) (by simp [step, hload])
    · cases hpc : t.pc with
      | resolving => exact hsame (step lowerRune s .finish) (by simp [step, hload, hpc])
      | settled playURL => exact hsame (step lowerRune s .finish) (by simp [step, hload, hpc])
      | started =>
        have e : step lowerRune s .finish = s.continueLoad (loadFinish s.app t) := by
          simp only [step, hload, hpc]
        rw [e]
        obtain ⟨-, -, h3, h4, h5⟩ := loadDeferred_frame s.app t false
        exact hcont t _ hload ⟨h3, h4, h5⟩
  · obtain ⟨-, -, h3, h4, h5⟩ := togglePause_frame s.app fault
    refine ⟨h3, h4, rfl, ?_, ?_⟩
    · show (s.log ++ (togglePause s.app fault).2).countP Effect.startsLoad
        = s.log.countP Effect.startsLoad
      rw [List.countP_append, h5, Nat.add_zero]
    · intro hnone
      exact ⟨hnone, togglePause_isLoading s.app fault⟩

/-- One step beside an advance that does not end a load keeps the advance in
one of its two phases: waiting for a started call to be accepted, or loading
with exactly one call accepted. -/
theorem skip_step (lowerRune : Char → Char) (s0 s : System) (act : Action)
    (h0 : s0.app.isLoading = false)
    (hJ : skipWaiting s0 s ∨ skipLoading s0 s) (hs : skipStep lowerRune s act) :
    skipWaiting s0 (step lowerRune s act) ∨ skipLoading s0 (step lowerRune s act) := by
  obtain ⟨hb, hkeep⟩ := hs
  have hframe : ((∃ r stopFault, act = .resolved r stopFault) ∨
      (∃ playFault, act = .play playFault) ∨ act = .finish ∨
      (∃ fault, act = .togglePause fault) ∨
      (act = .spaceKey ∨ (∃ k, act = .toggleRead k) ∨ act = .redraw) ∨
      ∃ k fault, act = .toggleWrite k fault) →
      skipWaiting s0 (step lowerRune s act) ∨ skipLoading s0 (step lowerRune s act) := by
    intro hact
    obtain ⟨f1, f2, f3, f4, f5⟩ := step_goroutine_frame lowerRune s act hact
    rcases hJ with ⟨wl, wload, widx, wtot, wcnt, wpend⟩ | ⟨ll, lcnt, ltarget⟩
    · left
      refine ⟨(f5 wload).2.trans wl, (f5 wload).1, f1.trans widx, f2.trans wtot,
        f4.trans wcnt, ?_⟩
      rw [f3]
      exact wpend
    · right
      refine ⟨hkeep ll, f4.trans lcnt, ?_⟩
      rw [f1]
      exact ltarget
  have hsched : ∀ k, act = .schedule k →
      skipWaiting s0 (step lowerRune s act) ∨ skipLoading s0 (step lowerRune s act) := by
    intro k hact
    subst hact
    rcases Option.eq_none_or_eq_some s.pending[k]? with hk | ⟨j, hk⟩
    · have e : step lowerRune s (.schedule k) = s := by simp [step, hk]
      rw [e]
      exact hJ
    · have e : step lowerRune s (.schedule k) =
          ({ s with pending := s.pending.eraseIdx k } : System).runPlay j := by
        simp only [step, hk]
      rw [e]
      rcases hJ with ⟨wl, wload, widx, wtot, wcnt, wpend⟩ | ⟨ll, lcnt, ltarget⟩
      · rcases playSongAtIndex_result s.app j with hc | ⟨track, hc⟩
        · left
          simp only [System.runPlay, hc]
          refine ⟨wl, wload, widx, wtot, ?_, ?_⟩
          · simpa [System.loadsStarted] using wcnt
          · intro j1 hj1
            exact wpend j1 (List.mem_of_mem_eraseIdx hj1)
        · right
          simp only [System.runPlay, hc]
          refine ⟨rfl, ?_, wpend j (List.getElem?_mem hk)⟩
          simp only [System.loadsStarted] at wcnt ⊢
          rw [List.countP_append, wcnt]
          rfl
      · right
        obtain ⟨-, -, dd⟩ := requests_dropped_of_loading s.app ll
        simp only [System.runPlay, dd j]
        exact ⟨ll, by simpa [System.loadsStarted] using lcnt, ltarget⟩
  cases act with
  | loadMusic fetched => cases hb
  | searchMusic name => cases hb
  | selectRow row => cases hb
  | playAt index => cases hb
  | nextSong =>
    rcases hJ with ⟨wl, wload, widx, wtot, wcnt, wpend⟩ | ⟨ll, lcnt, ltarget⟩
    · have e := playNextSong_congr s.app s0.app wtot (wl.trans h0.symm) widx
      left
      cases hn : playNextSong s.app with
      | none =>
        simp only [step, hn]
        exact ⟨wl, wload, widx, wtot, wcnt, wpend⟩
      | some j =>
        simp only [step, hn]
        refine ⟨wl, wload, widx, wtot, wcnt, ?_⟩
        intro j1 hj1
        rcases List.mem_append.mp hj1 with hj1 | hj1
        · exact wpend j1 hj1
        · rw [List.mem_singleton] at hj1
          subst hj1
          exact Or.inl (e ▸ hn)
    · right
      obtain ⟨dn, -, -⟩ := requests_dropped_of_loading s.app ll
      simp only [step, dn]
      exact ⟨ll, lcnt, ltarget⟩
  | previousSong =>
    rcases hJ with ⟨wl, wload, widx, wtot, wcnt, wpend⟩ | ⟨ll, lcnt, ltarget⟩
    · have e := playPreviousSong_congr s.app s0.app wtot (wl.trans h0.symm) widx
      left
      cases hn : playPreviousSong s.app with
      | none =>
        simp only [step, hn]
        exact ⟨wl, wload, widx, wtot, wcnt, wpend⟩
      | some j =>
        simp only [step, hn]
        refine ⟨wl, wload, widx, wtot, wcnt, ?_⟩
        intro j1 hj1
        rcases List.mem_append.mp hj1 with hj1 | hj1
        · exact wpend j1 hj1
        · rw [List.mem_singleton] at hj1
          subst hj1
          exact Or.inr (e ▸ hn)
    · right
      obtain ⟨-, dp, -⟩ := requests_dropped_of_loading s.app ll
      simp only [step, dp]
      exact ⟨ll, lcnt, ltarget⟩
  | schedule k => exact hsched k rfl
  | resolved r stopFault => exact hframe (Or.inl ⟨r, stopFault, rfl⟩)
  | play playFault => exact hframe (Or.inr (Or.inl ⟨playFault, rfl⟩))
  | finish => exact hframe (Or.inr (Or.inr (Or.inl rfl)))
  | togglePause fault => exact hframe (Or.inr (Or.inr (Or.inr (Or.inl ⟨fault, rfl⟩))))
  | spaceKey => exact hframe (Or.inr (Or.inr (Or.inr (Or.inr (Or.inl (Or.inl rfl))))))
  | toggleRead k =>
    exact hframe (Or.inr (Or.inr (Or.inr (Or.inr (Or.inl (Or.inr (Or.inl ⟨k, rfl⟩)))))))
  | redraw =>
    exact hframe (Or.inr (Or.inr (Or.inr (Or.inr (Or.inl (Or.inr (Or.inr rfl)))))))
  | toggleWrite k fault =>
    exact hframe (Or.inr (Or.inr (Or.inr (Or.inr (Or.inr ⟨k, fault, rfl⟩)))))

/-- A run of steps beside an advance during which no load ends keeps the
advance in one of its two phases. -/
theorem skip_run_phases (lowerRune : Char → Char) (s0 : System)
    (h0 : s0.app.isLoading = false) (acts : List Action) (s : System)
    (hJ : skipWaiting s0 s ∨ skipLoading s0 s) (hrun : skipRun lowerRune s acts) :
    skipWaiting s0 (run lowerRune s acts) ∨ skipLoading s0 (run lowerRune s acts) := by
  induction acts generalizing s with
  | nil => exact hJ
  | cons act acts ih => exact ih _ (skip_step lowerRune s0 s act h0 hJ hrun.1) hrun.2

/-- C12, counterexample: in `Playing(2)` over three tracks `playNextSong`
runs twice (the key and the end-of-track event) before either started call
runs; both pass the `isLoading` test and start `playSongAtIndex(0)`.  The
first call is accepted and its load ends at once on an empty URL; the second
call runs after that and is accepted too.  Two `Loading` transitions are
started by the two advances (three with the one that led to `Playing(2)`);
the index has moved from 2 to 0, by one track. -/
theorem second_call_accepted_after_load_ended :
    ReachableBy id anyStep
      (run id played2
        [.nextSong, .nextSong, .schedule 0, .resolved (.url "") false, .schedule 0]) ∧
    played2.app.isLoading = false ∧ played2.load = none ∧ played2.pending = [] ∧
    played2.app.currentSongIndex = 2 ∧ played2.loadsStarted = 1 ∧
    (run id played2 [.nextSong, .nextSong]).pending = [0, 0] ∧
    (run id played2 [.nextSong, .nextSong, .schedule 0]).app.isLoading = true ∧
    (run id played2 [.nextSong, .nextSong, .schedule 0]).loadsStarted = 2 ∧
    (run id played2
      [.nextSong, .nextSong, .schedule 0, .resolved (.url "") false]).app.isLoading
      = false ∧
    (run id played2
      [.nextSong, .nextSong, .schedule 0, .resolved (.url "") false,
        .schedule 0]).loadsStarted = 3 ∧
    (run id played2
      [.nextSong, .nextSong, .schedule 0, .resolved (.url "") false,
        .schedule 0]).app.currentSongIndex = 0 :=
  ⟨run_reachable id _ _ (run_reachable id _ initial ReachableBy.start),
    by decide, by decide, by decide, by decide, by decide, by decide, by decide, by decide,
    by decide, by decide, by decide⟩

/-- C12, amended: start with no load in flight and no started call waiting.
Under every interleaving of `playNextSong` and `playPreviousSong` calls (from
keys or from the end-of-track event), the started `playSongAtIndex` calls, the
pieces of the load goroutine and the space key, in which no step ends a load
in flight, at most one `Loading` transition is started, and the current
index is the one before or an index that `playNextSong` or `playPreviousSong`
requests in the starting state. -/
theorem one_load_while_advances_overlap (lowerRune : Char → Char) (s : System)
    (acts : List Action) (hl : s.app.isLoading = false) (hload : s.load = none)
    (hp : s.pending = []) (hrun : skipRun lowerRune s acts) :
    (run lowerRune s acts).loadsStarted ≤ s.loadsStarted + 1 ∧
    ((run lowerRune s acts).app.currentSongIndex = s.app.currentSongIndex ∨
      playNextSong s.app = some (run lowerRune s acts).app.currentSongIndex ∨
      playPreviousSong s.app = some (run lowerRune s acts).app.currentSongIndex) := by
  have hstart : skipWaiting s s ∨ skipLoading s s := by
    left
    refine ⟨hl, hload, rfl, rfl, rfl, ?_⟩
    intro j hj
    rw [hp] at hj
    cases hj
  rcases skip_run_phases lowerRune s hl acts s hstart hrun with
    ⟨_, _, widx, _, wcnt, _⟩ | ⟨_, lcnt, ltarget⟩
  · exact ⟨by omega, Or.inl widx⟩
  · exact ⟨by omega, Or.inr ltarget⟩

/-- Witness of C12 amended: in `Playing(2)` the key and the end-of-track
event both call `playNextSong`, then both started calls run. -/
theorem one_load_while_advances_overlap_witness :
    played2.app.isLoading = false ∧ played2.load = none ∧ played2.pending = [] ∧
    skipRun id played2 [.nextSong, .nextSong, .schedule 0, .schedule 0] ∧
    (run id played2 [.nextSong, .nextSong, .schedule 0, .schedule 0]).loadsStarted
      ≤ played2.loadsStarted + 1 ∧
    ((run id played2 [.nextSong, .nextSong, .schedule 0, .schedule 0]).app.currentSongIndex
        = played2.app.currentSongIndex ∨
      playNextSong played2.app =
        some (run id played2
          [.nextSong, .nextSong, .schedule 0, .schedule 0]).app.currentSongIndex ∨
      playPreviousSong played2.app =
        some (run id played2
          [.nextSong, .nextSong, .schedule 0, .schedule 0]).app.currentSongIndex) :=
  have hrun : skipRun id played2 [.nextSong, .nextSong, .schedule 0, .schedule 0] :=
    ⟨⟨rfl, by decide⟩, ⟨rfl, by decide⟩, ⟨rfl, by decide⟩, ⟨rfl, by decide⟩, trivial⟩
  have h := one_load_while_advances_overlap id played2
    [.nextSong, .nextSong, .schedule 0, .schedule 0] (by decide) (by decide) (by decide) hrun
  ⟨by decide, by decide, by decide, hrun, h.1, h.2⟩

/-! ## Index handed to `playSongAtIndex` by an advance -/

/-- With a non-empty catalog, no load in flight and a stored index `>= -1`,
`playNextSong` requests an index in `[0, count)`. -/
theorem playNextSong_in_range (a : Application) (hne : a.totalSongs.length ≠ 0)
    (hl : a.isLoading = false) (hidx : -1 ≤ a.currentSongIndex) :
    ∃ j, playNextSong a = some j ∧ 0 ≤ j ∧ j < (a.totalSongs.length : Int) := by
  unfold playNextSong
  simp only [hne, if_false, hl, Bool.false_eq_true]
  by_cases hc : a.currentSongIndex + 1 ≥ (a.totalSongs.length : Int)
  · exact ⟨0, by rw [if_pos hc], le_refl _, by omega⟩
  · exact ⟨a.currentSongIndex + 1, by rw [if_neg hc], by omega, by omega⟩

/-- With a non-empty catalog, no load in flight and a stored index of at
most `count`, `playPreviousSong` requests an index in `[0, count)`. -/
theorem playPreviousSong_in_range (a : Application) (hne : a.totalSongs.length ≠ 0)
    (hl : a.isLoading = false)
    (hhigh : a.currentSongIndex ≤ (a.totalSongs.length : Int)) :
    ∃ j, playPreviousSong a = some j ∧ 0 ≤ j ∧ j < (a.totalSongs.length : Int) := by
  unfold playPreviousSong
  simp only [hne, if_false, hl, Bool.false_eq_true]
  by_cases hc : a.currentSongIndex - 1 < 0
  · exact ⟨(a.totalSongs.length : Int) - 1, by rw [if_pos hc], by omega, by omega⟩
  · exact ⟨a.currentSongIndex - 1, by rw [if_neg hc], by omega, by omega⟩

/-- C13, evaluated: from `Playing(2)` over three tracks the search for
"ALPHA" replaces the catalog by its one matching track, so `count = 1` while
the stored index is still 2.  With no load in flight `playNextSong` requests
index 0, but `playPreviousSong` requests index `2 - 1 = 1`, which is not in
`[0, 1)`: the started `playSongAtIndex(1)` returns at its range check and the
advance is discarded with no change of state and no effect. -/
theorem previous_after_search_out_of_range :
    ReachableBy Char.toLower anyStep (run Char.toLower played2 [.searchMusic "ALPHA"]) ∧
    (run Char.toLower played2 [.searchMusic "ALPHA"]).app.totalSongs
      = [mkSong "s0" "Alpha"] ∧
    (run Char.toLower played2 [.searchMusic "ALPHA"]).app.currentSongIndex = 2 ∧
    (run Char.toLower played2 [.searchMusic "ALPHA"]).app.isLoading = false ∧
    playNextSong (run Char.toLower played2 [.searchMusic "ALPHA"]).app = some 0 ∧
    playPreviousSong (run Char.toLower played2 [.searchMusic "ALPHA"]).app = some 1 ∧
    playSongAtIndex (run Char.toLower played2 [.searchMusic "ALPHA"]).app 1 =
      ((run Char.toLower played2 [.searchMusic "ALPHA"]).app, [], none) ∧
    (run Char.toLower played2 [.searchMusic "ALPHA", .previousSong]).pending = [1] ∧
    (run Char.toLower played2 [.searchMusic "ALPHA", .previousSong, .schedule 0]).app =
      (run Char.toLower played2 [.searchMusic "ALPHA"]).app ∧
    (run Char.toLower played2 [.searchMusic "ALPHA", .previousSong, .schedule 0]).log =
      (run Char.toLower played2 [.searchMusic "ALPHA"]).log ∧
    (run Char.toLower played2 [.searchMusic "ALPHA", .previousSong, .schedule 0]).load
      = none :=
  have e : run Char.toLower initial [.loadMusic (some catalog3), .playAt 2,
      .resolved (.url "http://h/s2") false, .play false, .finish] = played2 := by decide
  ⟨run_reachable Char.toLower _ _
      (e ▸ run_reachable Char.toLower _ initial ReachableBy.start),
    by decide, by decide, by decide, by decide, by decide, by decide, by decide, by decide,
    by decide, by decide⟩

/-! ## A failed load beside other steps -/

/-- C10, counterexample: three tracks are fetched and the table is redrawn,
so it shows "Alpha", "Beta", "Gamma" on table rows 1 to 3.  A search for
"GAMMA" replaces the catalog by its one match; its redraw is queued and has
not run.  No load is in flight.  Selecting data row 0, which shows "Alpha",
starts `playSongAtIndex(0)`, and index 0 of the catalog is now "Gamma", the
track that gets loaded; selecting data row 1, which shows "Beta", starts no
call at all. -/
theorem selected_row_of_stale_table :
    ReachableBy Char.toLower anyStep
      (run Char.toLower initial
        [.loadMusic (some catalog3), .redraw, .searchMusic "GAMMA"]) ∧
    (run Char.toLower initial
      [.loadMusic (some catalog3), .redraw, .searchMusic "GAMMA"]).app.isLoading = false ∧
    (run Char.toLower initial
      [.loadMusic (some catalog3), .redraw, .searchMusic "GAMMA"]).table =
      [(1, mkSong "s0" "Alpha"), (2, mkSong "s1" "Beta"), (3, mkSong "s2" "Gamma")] ∧
    (run Char.toLower initial
      [.loadMusic (some catalog3), .redraw, .searchMusic "GAMMA"]).app.totalSongs =
      [mkSong "s2" "Gamma"] ∧
    songTableSelected (run Char.toLower initial
      [.loadMusic (some catalog3), .redraw, .searchMusic "GAMMA"]).app (0 + 1) = some 0 ∧
    absoluteIndex (run Char.toLower initial
      [.loadMusic (some catalog3), .redraw, .searchMusic "GAMMA"]).app 0 = 0 ∧
    (run Char.toLower initial
      [.loadMusic (some catalog3), .redraw, .searchMusic "GAMMA", .selectRow 1,
        .schedule 0]).app.currentSong = some (mkSong "s2" "Gamma") ∧
    songTableSelected (run Char.toLower initial
      [.loadMusic (some catalog3), .redraw, .searchMusic "GAMMA"]).app (1 + 1) = none :=
  ⟨run_reachable Char.toLower _ initial ReachableBy.start, by decide, by decide, by decide,
    by decide, by decide, by decide, by decide⟩

/-- While a load is in flight the selection handler starts no call. -/
theorem songTableSelected_loading (a : Application) (row : Int) (hl : a.isLoading = true) :
    songTableSelected a row = none := by
  unfold songTableSelected
  split
  · simp [hl]
  · rfl

/-- C10, amended: in every reachable state in which the song table holds the
rows of the current page (the redraw queued by the last replacement of the
catalog has run), for every data row `row` shown (table row `row + 1`):
with no load in flight, selecting the row starts `playSongAtIndex` with the
absolute index `(page-1)*pageSize + row`; with a load in flight it starts no
call, and `playSongAtIndex` with that index would be dropped as well; and the
track at that index of the catalog is the track shown on the row. -/
theorem selected_row_plays_shown_track (lowerRune : Char → Char) (s : System) (row : Nat)
    (h : ReachableBy lowerRune anyStep s) (htable : renderSongTable s.app = some s.table)
    (hrow : row < s.table.length) :
    (s.app.isLoading = false →
      songTableSelected s.app ((row : Int) + 1) = some (absoluteIndex s.app row)) ∧
    (s.app.isLoading = true →
      songTableSelected s.app ((row : Int) + 1) = none ∧
      playSongAtIndex s.app (absoluteIndex s.app row) = (s.app, [], none)) ∧
    ∃ song, s.table[row]? = some ((row : Int) + 1, song) ∧
      s.app.totalSongs[(absoluteIndex s.app row).toNat]? = some song := by
  obtain ⟨hpage, hsize⟩ := reachable_first_page lowerRune s h
  have hpos : 0 < s.app.pageSize := by
    rw [hsize]
    decide
  have hd := getCurrentPageData_first_page s.app hpage hpos
  have htab : s.table =
      List.zipWith (fun (i : Nat) (song : Song) => ((i : Int) + 1, song))
        (List.range (s.app.totalSongs.take s.app.pageSize.toNat).length)
        (s.app.totalSongs.take s.app.pageSize.toNat) := by
    have h2 := htable
    unfold renderSongTable at h2
    rw [hd] at h2
    exact (Option.some.inj h2).symm
  have hrow2 : row < (s.app.totalSongs.take s.app.pageSize.toNat).length := by
    have hlen := congrArg List.length htab
    rw [List.length_zipWith, List.length_range, Nat.min_self] at hlen
    omega
  obtain ⟨hsel, -, song, -, htot, hrender⟩ :=
    row_on_first_page s.app _ row hpage hpos hd hrow2
  refine ⟨hsel, ?_, song, ?_, htot⟩
  · intro hl
    exact ⟨songTableSelected_loading s.app _ hl,
      (requests_dropped_of_loading s.app hl).2.2 _⟩
  · rw [htable] at hrender
    exact Option.some.inj hrender

/-- Witness of C10 amended: three tracks are fetched and the table is
redrawn; data row 2. -/
theorem selected_row_plays_shown_track_witness :
    ReachableBy id anyStep (run id initial [.loadMusic (some catalog3), .redraw]) ∧
    renderSongTable (run id initial [.loadMusic (some catalog3), .redraw]).app =
      some (run id initial [.loadMusic (some catalog3), .redraw]).table ∧
    2 < (run id initial [.loadMusic (some catalog3), .redraw]).table.length ∧
    songTableSelected (run id initial [.loadMusic (some catalog3), .redraw]).app
      (((2 : Nat) : Int) + 1) =
      some (absoluteIndex (run id initial [.loadMusic (some catalog3), .redraw]).app
        ((2 : Nat) : Int)) ∧
    ∃ song, (run id initial [.loadMusic (some catalog3), .redraw]).table[2]? =
        some (((2 : Nat) : Int) + 1, song) ∧
      (run id initial [.loadMusic (some catalog3), .redraw]).app.totalSongs[
        (absoluteIndex (run id initial [.loadMusic (some catalog3), .redraw]).app
          ((2 : Nat) : Int)).toNat]? = some song :=
  have hr : ReachableBy id anyStep (run id initial [.loadMusic (some catalog3), .redraw]) :=
    run_reachable id _ initial ReachableBy.start
  have h := selected_row_plays_shown_track id _ 2 hr (by decide) (by decide)
  ⟨hr, by decide, by decide, h.1 (by decide), h.2.2⟩

end NaviCLI
